import Mathlib

/-!
Verification of the workflow graph validator/linter of this repository.

The definitions below are shallow embeddings of the Python sources
`scripts/validation/workflow_integrity.py` and
`scripts/workflows/lint_workflows.py`:

* JSON-ish parameter bags become `JVal` / association lists;
* Python dicts become association lists with last-write-wins insertion;
* the breadth-first traversal of `find_dead_code` becomes a fuel-indexed
  recursion (the fuel is an upper bound on the number of loop iterations,
  proved sufficient below);
* diagnostics become an inductive type `Diag` carrying exactly the data the
  source interpolates into its f-strings, with `Diag.render` reproducing the
  message text;
* the `KeyError` that `nodes[name]` can raise during the AI-subnode scan is
  modelled by `find_dead_code_checked`, which returns `Except`.
-/

namespace Kairon

/-- JSON-like values, as produced by `json.load` for the parameter bags. -/
inductive JVal where
  | null : JVal
  | bool : Bool → JVal
  | num : Int → JVal
  | str : String → JVal
  | arr : List JVal → JVal
  | obj : List (String × JVal) → JVal

mutual

/-- Structural equality of JSON values. -/
def JVal.beq : JVal → JVal → Bool
  | .null, .null => true
  | .bool a, .bool b => a == b
  | .num a, .num b => a == b
  | .str a, .str b => a == b
  | .arr xs, .arr ys => JVal.beqArr xs ys
  | .obj xs, .obj ys => JVal.beqObj xs ys
  | _, _ => false

/-- Structural equality of JSON array contents. -/
def JVal.beqArr : List JVal → List JVal → Bool
  | [], [] => true
  | x :: xs, y :: ys => JVal.beq x y && JVal.beqArr xs ys
  | _, _ => false

/-- Structural equality of JSON object contents. -/
def JVal.beqObj : List (String × JVal) → List (String × JVal) → Bool
  | [], [] => true
  | (k, v) :: xs, (l, w) :: ys => k == l && JVal.beq v w && JVal.beqObj xs ys
  | _, _ => false

end

mutual

theorem JVal.eq_of_beq : ∀ {a b : JVal}, JVal.beq a b = true → a = b
  | .null, .null, _ => rfl
  | .bool a, .bool b, h => by
    simpa [JVal.beq] using congrArg JVal.bool (by simpa [JVal.beq] using h)
  | .num a, .num b, h => by
    have : a = b := by simpa [JVal.beq] using h
    exact this ▸ rfl
  | .str a, .str b, h => by
    have : a = b := by simpa [JVal.beq] using h
    exact this ▸ rfl
  | .arr xs, .arr ys, h => by
    have : xs = ys := JVal.eqArr_of_beqArr (by simpa [JVal.beq] using h)
    exact this ▸ rfl
  | .obj xs, .obj ys, h => by
    have : xs = ys := JVal.eqObj_of_beqObj (by simpa [JVal.beq] using h)
    exact this ▸ rfl

theorem JVal.eqArr_of_beqArr : ∀ {xs ys : List JVal},
    JVal.beqArr xs ys = true → xs = ys
  | [], [], _ => rfl
  | x :: xs, y :: ys, h => by
    have h' := h
    simp only [JVal.beqArr, Bool.and_eq_true] at h'
    have h1 : x = y := JVal.eq_of_beq h'.1
    have h2 : xs = ys := JVal.eqArr_of_beqArr h'.2
    rw [h1, h2]

theorem JVal.eqObj_of_beqObj : ∀ {xs ys : List (String × JVal)},
    JVal.beqObj xs ys = true → xs = ys
  | [], [], _ => rfl
  | (k, v) :: xs, (l, w) :: ys, h => by
    have h' := h
    simp only [JVal.beqObj, Bool.and_eq_true] at h'
    have h1 : k = l := by simpa using h'.1.1
    have h2 : v = w := JVal.eq_of_beq h'.1.2
    have h3 : xs = ys := JVal.eqObj_of_beqObj h'.2
    rw [h1, h2, h3]

end

mutual

theorem JVal.beq_refl : ∀ a : JVal, JVal.beq a a = true
  | .null => rfl
  | .bool a => by simp [JVal.beq]
  | .num a => by simp [JVal.beq]
  | .str a => by simp [JVal.beq]
  | .arr xs => by simpa [JVal.beq] using JVal.beqArr_refl xs
  | .obj xs => by simpa [JVal.beq] using JVal.beqObj_refl xs

theorem JVal.beqArr_refl : ∀ xs : List JVal, JVal.beqArr xs xs = true
  | [] => rfl
  | x :: xs => by
    simp only [JVal.beqArr, Bool.and_eq_true]
    exact ⟨JVal.beq_refl x, JVal.beqArr_refl xs⟩

theorem JVal.beqObj_refl : ∀ xs : List (String × JVal), JVal.beqObj xs xs = true
  | [] => rfl
  | (k, v) :: xs => by
    simp only [JVal.beqObj, Bool.and_eq_true]
    exact ⟨⟨by simp, JVal.beq_refl v⟩, JVal.beqObj_refl xs⟩

end

instance : DecidableEq JVal := fun a b =>
  if h : JVal.beq a b = true then isTrue (JVal.eq_of_beq h)
  else isFalse (fun he => h (he ▸ JVal.beq_refl a))

/-- Python truthiness of a JSON value (`if not params`, `if not workflow_id`). -/
def JVal.truthy : JVal → Bool
  | .null => false
  | .bool b => b
  | .num n => n != 0
  | .str s => s != ""
  | .arr xs => !xs.isEmpty
  | .obj kvs => !kvs.isEmpty

/-- Python `type(v).__name__` for a JSON value. -/
def JVal.pyTypeName : JVal → String
  | .null => "NoneType"
  | .bool _ => "bool"
  | .num _ => "int"
  | .str _ => "str"
  | .arr _ => "list"
  | .obj _ => "dict"

/-- Python `str(v)` (as far as the rendered diagnostics need it). -/
def JVal.pyStr : JVal → String
  | .null => "None"
  | .bool b => if b then "True" else "False"
  | .num n => toString n
  | .str s => s
  | .arr _ => "[...]"
  | .obj _ => "{...}"

/-- `d.get(k)` on a parsed JSON object: the value of the last binding of `k`. -/
def jget (kvs : List (String × JVal)) (k : String) : Option JVal :=
  (kvs.reverse.find? (fun p => p.1 == k)).map (·.2)

/-- `d.get(k, default)`. -/
def jgetD (kvs : List (String × JVal)) (k : String) (dflt : JVal) : JVal :=
  (jget kvs k).getD dflt

/-- `v.get(k)` where `v` is expected to be a JSON object. -/
def objGet (v : JVal) (k : String) : Option JVal :=
  match v with
  | .obj kvs => jget kvs k
  | _ => none

/-- `k in d` for a parsed JSON object. -/
def jHasKey (kvs : List (String × JVal)) (k : String) : Bool :=
  kvs.any (fun p => p.1 == k)

/-- One entry of a connection output list; `node` is `conn.get("node")`. -/
structure Conn where
  node : Option String
  deriving DecidableEq

/-- `connections[src]`: output type (e.g. `"main"`) ↦ list of output slots,
each slot a list of connection entries. -/
abbrev Outputs := List (String × List (List Conn))

/-- The `connections` mapping of a workflow document. -/
abbrev Connections := List (String × Outputs)

/-- A workflow node as the validator reads it: `name` is `n["name"]`,
`type` is `n.get("type", "")`, `typeVersion` is `n.get("typeVersion", 1)`,
`parameters` is `n.get("parameters", {})`. -/
structure Node where
  name : String
  «type» : String
  typeVersion : Int := 1
  parameters : List (String × JVal) := []
  deriving DecidableEq

/-- A parsed workflow document. -/
structure Workflow where
  name : Option String := none
  isArchived : Bool := false
  nodes : List Node := []
  connections : Connections := []
  deriving DecidableEq

/-! ### String helpers (Python `in`, `startswith`, substring search) -/

/-- `listPrefix p l`: `p` is a prefix of `l` (on characters). -/
def listPrefix : List Char → List Char → Bool
  | [], _ => true
  | _ :: _, [] => false
  | a :: as, b :: bs => a == b && listPrefix as bs

/-- `listInfix n l`: `n` occurs as a contiguous run inside `l`. -/
def listInfix (n : List Char) : List Char → Bool
  | [] => listPrefix n []
  | c :: cs => listPrefix n (c :: cs) || listInfix n cs

/-- Python `needle in hay` for strings. -/
def strContains (hay needle : String) : Bool :=
  listInfix needle.data hay.data

/-- The character after the last `'.'` of `full_type.split(".")`:
`full_type.split(".")[-1]`. -/
def afterLastDot (cs : List Char) : List Char :=
  cs.foldl (fun acc c => if c == '.' then [] else acc ++ [c]) []

/-- `get_node_type` of both scripts: the last dot-separated segment of the
node's `type`, or the whole `type` when it has no dot. -/
def get_node_type (full_type : String) : String :=
  if full_type.data.any (fun c => c == '.') then
    String.mk (afterLastDot full_type.data)
  else full_type

/-! ### Python dict of nodes (`{n["name"]: n for n in nodes}`) -/

/-- Python dict assignment `m[k] = v`: replaces in place or appends. -/
def dictInsert (m : List (String × Node)) (k : String) (v : Node) :
    List (String × Node) :=
  if m.any (fun p => p.1 == k) then
    m.map (fun p => if p.1 == k then (k, v) else p)
  else m ++ [(k, v)]

/-- `{n["name"]: n for n in nodes}`. -/
def nodesDict (ns : List Node) : List (String × Node) :=
  ns.foldl (fun m n => dictInsert m n.name n) []

/-- Dict lookup (`nodes[name]` / `nodes.get(name)`). -/
def lookupNode (nd : List (String × Node)) (k : String) : Option Node :=
  (nd.find? (fun p => p.1 == k)).map (·.2)

/-! ### Graph construction (`find_dead_code` lines building `graph`) -/

/-- `graph[src].append(target)`. -/
def addTarget (g : List (String × List String)) (src tgt : String) :
    List (String × List String) :=
  g.map (fun p => if p.1 == src then (p.1, p.2 ++ [tgt]) else p)

/-- One `conn` of the nested loops: `if target and src in graph:
graph[src].append(target)`. -/
def addConn (g : List (String × List String)) (src : String) (c : Conn) :
    List (String × List String) :=
  match c.node with
  | some t => if t != "" && g.any (fun p => p.1 == src) then addTarget g src t else g
  | none => g

/-- The forward adjacency graph: `{name: [] for name in nodes}` followed by the
nested loops over `connections`. -/
def buildGraph (keys : List String) (conns : Connections) :
    List (String × List String) :=
  conns.foldl
    (fun g e =>
      e.2.foldl
        (fun g o =>
          o.2.foldl (fun g out => out.foldl (fun g c => addConn g e.1 c) g) g)
        g)
    (keys.map (fun k => (k, [])))

/-- `graph.get(node, [])`. -/
def lookupAdj (g : List (String × List String)) (n : String) : List String :=
  match g.find? (fun p => p.1 == n) with
  | some p => p.2
  | none => []

/-! ### Breadth-first traversal -/

/-- The BFS work loop of `find_dead_code`, with explicit fuel. Each iteration
pops the queue head; an unvisited node is appended to the visited list and its
not-yet-visited neighbours are enqueued. -/
def bfsAux (adj : String → List String) :
    Nat → List String → List String → List String
  | 0, _, vis => vis
  | _ + 1, [], vis => vis
  | fuel + 1, n :: q, vis =>
    if n ∈ vis then bfsAux adj fuel q vis
    else
      let vis' := vis ++ [n]
      bfsAux adj fuel (q ++ (adj n).filter (fun m => ¬ m ∈ vis')) vis'

/-- Fuel that bounds the number of BFS iterations: every node is popped at most
once per time it is enqueued, and enqueues are bounded by the initial queue plus
the total size of all adjacency lists. -/
def bfsFuel (g : List (String × List String)) (triggers : List String) : Nat :=
  triggers.length + (g.map (fun p => p.2.length)).sum + 1

/-- The reachable set computed by the BFS of `find_dead_code` (as the list of
nodes in visit order). -/
def bfsReachable (g : List (String × List String)) (triggers : List String) :
    List String :=
  bfsAux (lookupAdj g) (bfsFuel g triggers) triggers []

/-! ### `find_dead_code` -/

/-- `trigger_keywords = ["Trigger", "webhook"]`. -/
def trigger_keywords : List String := ["Trigger", "webhook"]

/-- `any(kw in node.get("type", "") for kw in trigger_keywords)`. -/
def isTriggerType (t : String) : Bool :=
  trigger_keywords.any (fun kw => strContains t kw)

/-- `ai_chain_types = ["chainLlm", "agentExecutor", "chainRetrievalQa"]`. -/
def ai_chain_types : List String := ["chainLlm", "agentExecutor", "chainRetrievalQa"]

/-- `ai_model_types`. -/
def ai_model_types : List String :=
  ["lmChatOpenRouter", "lmChatOpenAi", "lmChatAnthropic", "lmChatMistral"]

/-- `any(chain_type in t for chain_type in ai_chain_types)`. -/
def isAiChainType (t : String) : Bool :=
  ai_chain_types.any (fun ct => strContains t ct)

/-- `any(model_type in t for model_type in ai_model_types)`. -/
def isAiModelType (t : String) : Bool :=
  ai_model_types.any (fun mt => strContains t mt)

/-- The `type` of the dict entry for `name`, defaulting to `""` when `name` is
not a key (the total reading of `nodes[name].get("type", "")`). -/
def typeOfName (nd : List (String × Node)) (name : String) : String :=
  match lookupNode nd name with
  | some n => n.«type»
  | none => ""

/-- The node-name keys of the document's node dict. -/
def nodeKeys (wf : Workflow) : List String :=
  (nodesDict wf.nodes).map Prod.fst

/-- The trigger list of `find_dead_code`:
`[name for name, node in nodes.items() if any(kw in node.get("type", "") ...)]`. -/
def triggersOf (wf : Workflow) : List String :=
  ((nodesDict wf.nodes).filter (fun p => isTriggerType p.2.«type»)).map Prod.fst

/-- The reachable set of `find_dead_code` for a document. -/
def reachableOf (wf : Workflow) : List String :=
  bfsReachable (buildGraph (nodeKeys wf) wf.connections) (triggersOf wf)

/-- `has_reachable_ai_chain`, with the dict indexing made total (missing names
read as type `""`). -/
def hasReachableAiChain (wf : Workflow) : Bool :=
  (reachableOf wf).any (fun name => isAiChainType (typeOfName (nodesDict wf.nodes) name))

/-- `find_dead_code` (lines 96–172), with the `nodes[name]` indexing of the
AI-subnode scan made total; `find_dead_code_checked` models the possible
`KeyError`. Returns `(dead_nodes, trigger_names)`. -/
def find_dead_code (wf : Workflow) : List String × List String :=
  let nd := nodesDict wf.nodes
  let reachable := reachableOf wf
  let dead := (nd.map Prod.fst).filter (fun k => ¬ k ∈ reachable)
  let deadFinal :=
    if hasReachableAiChain wf then
      dead.filter (fun k =>
        ¬ (match lookupNode nd k with
           | some n => isAiModelType n.«type»
           | none => false) = true)
    else dead
  (deadFinal, triggersOf wf)

/-- The generator of `has_reachable_ai_chain` with Python's `KeyError`
semantics: `nodes[name]` raises for a reachable name that is not a node key
(the scan short-circuits at the first chain node it sees). -/
def hasChainScan (nd : List (String × Node)) : List String → Except String Bool
  | [] => .ok false
  | name :: rest =>
    match lookupNode nd name with
    | none => .error ("KeyError: " ++ name)
    | some n => if isAiChainType n.«type» then .ok true else hasChainScan nd rest

/-- `find_dead_code` with the `KeyError` of the AI-subnode scan made explicit:
this is the faithful translation of lines 96–172. -/
def find_dead_code_checked (wf : Workflow) :
    Except String (List String × List String) :=
  let nd := nodesDict wf.nodes
  let reachable := reachableOf wf
  let dead := (nd.map Prod.fst).filter (fun k => ¬ k ∈ reachable)
  match hasChainScan nd reachable with
  | .error e => .error e
  | .ok hasChain =>
    let deadFinal :=
      if hasChain then
        dead.filter (fun k =>
          ¬ (match lookupNode nd k with
             | some n => isAiModelType n.«type»
             | none => false) = true)
      else dead
    .ok (deadFinal, triggersOf wf)

/-! ### Per-node rule checks (`workflow_integrity.py`) -/

/-- `.get(k)` on a JSON object value with Python's `None` collapsing: a key
bound to JSON `null` reads the same as a missing key. -/
def pyObjGet (v : JVal) (k : String) : Option JVal :=
  match objGet v k with
  | some .null => none
  | r => r

/-- Diagnostics of the integrity validator.  Each constructor carries the data
that the corresponding Python f-string interpolates; `Diag.render` rebuilds the
exact message text. -/
inductive Diag where
  | deadCode (names : List String)
  | noTriggers
  | emptyTrigger (name : String)
  | execMissingWorkflowId (name : String)
  | execModeNotList (name : String) (mode : Option JVal)
  | execMissingRef (name : String) (cached : JVal)
  | switchFallbackNotString (name : String) (v : JVal)
  | switchFallbackInvalid (name : String) (s : String)
  | codeReturnsArray (name : String)
  | mergeEmptyParams (name : String)
  | mergeMissingMode (name : String)
  | connFromMissing (src : String)
  | connToMissing (src : String) (target : String)
  | archivedSkip
  | allValidated (n : Nat)
  deriving DecidableEq

/-- The message text of a diagnostic, reproducing the source's f-strings. -/
def Diag.render : Diag → String
  | .deadCode names =>
    "DEAD CODE: " ++ toString names.length ++
      " node(s) unreachable from triggers: " ++ String.intercalate ", " names
  | .noTriggers => "No trigger nodes found in workflow"
  | .emptyTrigger name =>
    "executeWorkflowTrigger '" ++ name ++
      "' has empty parameters (n8n will show validation error)"
  | .execMissingWorkflowId name =>
    "'" ++ name ++ "': Execute Workflow missing workflowId configuration"
  | .execModeNotList name mode =>
    "'" ++ name ++ "': Execute Workflow using mode '" ++
      (match mode with | some v => v.pyStr | none => "None") ++
      "' instead of 'list' (not portable)"
  | .execMissingRef name cached =>
    "'" ++ name ++ "': References workflow '" ++ cached.pyStr ++
      "' which does not exist"
  | .switchFallbackNotString name v =>
    "'" ++ name ++
      "': Switch node fallbackOutput must be string ('extra' or 'none'), got: " ++
      v.pyTypeName
  | .switchFallbackInvalid name s =>
    "'" ++ name ++ "': Switch node fallbackOutput invalid value: '" ++ s ++ "'"
  | .codeReturnsArray name =>
    "'" ++ name ++
      "': Code in runOnceForEachItem mode returns array - should return single object"
  | .mergeEmptyParams name =>
    "'" ++ name ++ "': Merge node has empty parameters (needs mode configuration)"
  | .mergeMissingMode name => "'" ++ name ++ "': Merge node missing 'mode' parameter"
  | .connFromMissing src => "Connection from non-existent node: '" ++ src ++ "'"
  | .connToMissing src target =>
    "Connection to non-existent node: '" ++ src ++ "' -> '" ++ target ++ "'"
  | .archivedSkip => "Workflow is archived - skipping validation"
  | .allValidated n => "All " ++ toString n ++ " nodes validated successfully"

/-- Python's ascending `sorted` on strings, as an insertion sort. -/
def insSorted (x : String) : List String → List String
  | [] => [x]
  | y :: ys => if x ≤ y then x :: y :: ys else y :: insSorted x ys

/-- `sorted(dead_nodes)`. -/
def sortNames (l : List String) : List String := l.foldr insSorted []

/-- `check_empty_trigger` (lines 174–181). -/
def check_empty_trigger (node : Node) : Option Diag :=
  if strContains node.«type» "executeWorkflowTrigger" then
    if node.parameters.isEmpty then some (.emptyTrigger node.name) else none
  else none

/-- `cached_name not in self._workflow_names` (a non-string value is never in
the set of names). -/
def inRegistry (v : JVal) (workflow_names : List String) : Bool :=
  match v with
  | .str s => workflow_names.contains s
  | _ => false

/-- `check_execute_workflow_config` (lines 183–210). -/
def check_execute_workflow_config (workflow_names : List String) (node : Node) :
    List Diag :=
  let params := node.parameters
  let workflow_id := jgetD params "workflowId" (.obj [])
  if !workflow_id.truthy then [.execMissingWorkflowId node.name]
  else
    let mode := pyObjGet workflow_id "mode"
    (if mode ≠ some (.str "list") then [.execModeNotList node.name mode] else [])
    ++ (match pyObjGet workflow_id "cachedResultName" with
        | some v =>
          if v.truthy && !inRegistry v workflow_names then
            [.execMissingRef node.name v]
          else []
        | none => [])

/-- `check_switch_node_config` (lines 212–232). -/
def check_switch_node_config (node : Node) : List Diag :=
  let type_version := node.typeVersion
  let options := jgetD node.parameters "options" (.obj [])
  let fallback := pyObjGet options "fallbackOutput"
  if 3 ≤ type_version then
    match fallback with
    | none => []
    | some (.str s) =>
      if s ≠ "extra" ∧ s ≠ "none" then [.switchFallbackInvalid node.name s] else []
    | some v => [.switchFallbackNotString node.name v]
  else []

/-! ### `check_code_node_return`: the embedded-code regex heuristics -/

/-- Python `\s` on the ASCII range. -/
def isPyWs (c : Char) : Bool :=
  c == ' ' || c == '\t' || c == '\n' || c == '\r' || c.toNat == 11 || c.toNat == 12

/-- The characters `'\x7b'` and `'\x5b'` used by the patterns. -/
def lbraceChar : Char := Char.ofNat 123

/-- Strip an exact literal prefix, returning the rest. -/
def dropLit : List Char → List Char → Option (List Char)
  | [], cs => some cs
  | _ :: _, [] => none
  | a :: as, b :: bs => if a == b then dropLit as bs else none

/-- Match `return\s+\[` at the head of the character list, returning the rest
after the bracket. -/
def matchReturnArr (cs : List Char) : Option (List Char) :=
  match dropLit "return".data cs with
  | none => none
  | some rest =>
    match rest with
    | c :: rest2 =>
      if isPyWs c then
        match (rest2.dropWhile isPyWs) with
        | '[' :: rest3 => some rest3
        | _ => none
      else none
    | [] => none

/-- Match `return\s+\[\s*\{` at the head of the character list. -/
def matchReturnArrBrace (cs : List Char) : Bool :=
  match matchReturnArr cs with
  | some rest =>
    match rest.dropWhile isPyWs with
    | d :: _ => d == lbraceChar
    | [] => false
  | none => false

/-- Match `return\s+\[\s*\.\.\.` at the head of the character list. -/
def matchReturnArrSpread (cs : List Char) : Bool :=
  match matchReturnArr cs with
  | some rest => listPrefix "...".data (rest.dropWhile isPyWs)
  | none => false

/-- `re.search`: try the head matcher at every position. -/
def searchPred (p : List Char → Bool) : List Char → Bool
  | [] => p []
  | c :: cs => p (c :: cs) || searchPred p cs

/-- `re.search(r"return\s+\[\s*\{", code)`. -/
def reSearchReturnArrBrace (code : String) : Bool :=
  searchPred matchReturnArrBrace code.data

/-- `re.search(r"return\s+\[\s*\.\.\.|\.\.\.\$input", code)`. -/
def reSearchSpread (code : String) : Bool :=
  searchPred matchReturnArrSpread code.data || strContains code "...$input"

/-- `params.get(k, default)` read as a string (the keys the rules read this way
are strings in every document). -/
def pyGetStr (kvs : List (String × JVal)) (k : String) (dflt : String) : String :=
  match jget kvs k with
  | some (.str s) => s
  | _ => dflt

/-- `check_code_node_return` (lines 234–255). -/
def check_code_node_return (node : Node) : List Diag :=
  let params := node.parameters
  let code := pyGetStr params "jsCode" ""
  if code == "" then []
  else if jget params "mode" == some (.str "runOnceForEachItem") then
    if reSearchReturnArrBrace code && !strContains code "return [\x7bjson:" then
      if !reSearchSpread code then [.codeReturnsArray node.name] else []
    else []
  else []

/-- `check_postgres_query_params` (lines 257–262): disabled, returns nothing. -/
def check_postgres_query_params (_node : Node) : List Diag := []

/-- `check_merge_node_config` (lines 264–277). -/
def check_merge_node_config (node : Node) : List Diag :=
  if node.parameters.isEmpty then [.mergeEmptyParams node.name]
  else if !jHasKey node.parameters "mode" then [.mergeMissingMode node.name]
  else []

/-! ### `validate_workflow` -/

/-- The per-document result of `validate_workflow` (the `ValidationResult`
dataclass, with the reporting-only name fields omitted). -/
structure VResult where
  errors : List Diag := []
  warnings : List Diag := []
  info : List Diag := []
  dead_nodes : List String := []
  deriving DecidableEq

/-- `passed`: no error-severity diagnostics. -/
def VResult.passed (r : VResult) : Bool := r.errors.isEmpty

/-- The error-severity diagnostics contributed by one node in the per-node
loop of `validate_workflow` (lines 314–345). -/
def nodeErrors (workflow_names : List String) (n : Node) : List Diag :=
  let t := get_node_type n.«type»
  (if t == "executeWorkflow" then check_execute_workflow_config workflow_names n else [])
    ++ (if t == "switch" then check_switch_node_config n else [])

/-- The warning-severity diagnostics contributed by one node in the per-node
loop of `validate_workflow` (lines 314–345). -/
def nodeWarnings (n : Node) : List Diag :=
  let t := get_node_type n.«type»
  (match check_empty_trigger n with | some d => [d] | none => [])
    ++ (if t == "code" then check_code_node_return n else [])
    ++ (if t == "postgres" then check_postgres_query_params n else [])
    ++ (if t == "merge" then check_merge_node_config n else [])

/-- The connection-integrity errors of `validate_workflow` (lines 347–362). -/
def connErrors (wf : Workflow) : List Diag :=
  let node_names := wf.nodes.map (·.name)
  (wf.connections.map (fun e =>
    (if !node_names.contains e.1 then [Diag.connFromMissing e.1] else [])
      ++ ((e.2.map (fun o =>
            (o.2.map (fun out =>
              out.filterMap (fun c =>
                match c.node with
                | some t =>
                  if t != "" && !node_names.contains t then
                    some (Diag.connToMissing e.1 t)
                  else none
                | none => none))).flatten)).flatten))).flatten

/-- `validate_workflow` (lines 279–368) on an already-parsed document.
`workflow_names` is the Registry (`self._workflow_names`). -/
def validate_workflow (workflow_names : List String) (wf : Workflow) : VResult :=
  if wf.isArchived then { info := [.archivedSkip] }
  else
    let dt := find_dead_code wf
    let deadErrs : List Diag :=
      if !dt.1.isEmpty then [.deadCode (sortNames dt.1)] else []
    let trigWarns : List Diag := if dt.2.isEmpty then [.noTriggers] else []
    let nErrs := (wf.nodes.map (nodeErrors workflow_names)).flatten
    let nWarns := (wf.nodes.map nodeWarnings).flatten
    let errors := deadErrs ++ nErrs ++ connErrors wf
    let warnings := trigWarns ++ nWarns
    { errors := errors
      warnings := warnings
      info :=
        if errors.isEmpty && warnings.isEmpty then [.allValidated wf.nodes.length]
        else []
      dead_nodes := if !dt.1.isEmpty then dt.1 else [] }

/-- The three-way report status of `validate_all` (lines 459–465). -/
def statusOf (r : VResult) : String :=
  if !r.errors.isEmpty then "FAIL" else if !r.warnings.isEmpty then "WARN" else "PASS"

/-! ### Auto-fixer -/

/-- Pruning of a connection source's outputs: keep only the entries whose
target is not a dead node (lines 399–409). -/
def pruneOutputs (dead : List String) (outs : Outputs) : Outputs :=
  outs.map (fun o =>
    (o.1, o.2.map (fun out =>
      out.filter (fun c =>
        match c.node with
        | some t => !dead.contains t
        | none => true))))

/-- The document mutation of `fix_workflow` (lines 385–412): drop dead nodes,
drop connection entries whose source is dead, prune dead targets elsewhere. -/
def applyFix (wf : Workflow) (dead : List String) : Workflow :=
  { wf with
    nodes := wf.nodes.filter (fun n => !dead.contains n.name)
    connections :=
      (wf.connections.filter (fun e => !dead.contains e.1)).map
        (fun e => (e.1, pruneOutputs dead e.2)) }

/-- `fix_workflow` (lines 370–418) as a transformer of the file's parsed
content: `disk` is the parse of the target file (`none` = unreadable or
invalid JSON); the first component is the content after the call and the
second is the returned Boolean (`True` iff changes were written). -/
def fix_workflow (disk : Option Workflow) (dead_nodes : List String) :
    Option Workflow × Bool :=
  if dead_nodes.isEmpty then (disk, false)
  else
    match disk with
    | none => (disk, false)
    | some wf => (some (applyFix wf dead_nodes), true)

/-! ### Registry -/

/-- `_load_workflow_names` (lines 80–89): each parseable file contributes
`wf.get("name", filepath.stem)` to the name set.  `files` pairs each file's
stem with its parsed content (unparsable files are skipped upstream). -/
def loadWorkflowNames (files : List (String × Workflow)) : List String :=
  files.foldl
    (fun acc f =>
      let name := f.2.name.getD f.1
      if acc.contains name then acc else acc ++ [name])
    []

/-! ### CLI exit codes -/

/-- The exit-code policy of `workflow_integrity.py`'s `main` (lines 532–537 for
single-file mode and 544–549 for directory mode), as a function of the strict
flag and the error/warning counts. -/
def integrityExitCode (strict : Bool) (numErrors numWarnings : Nat) : Nat :=
  if numErrors > 0 then 1 else if strict && numWarnings > 0 then 2 else 0

/-- The exit-code policy of `lint_workflows.py`'s `main` (lines 546–551): that
CLI has no strict flag. -/
def lintExitCode (total_errors total_warnings : Nat) : Nat :=
  if total_errors > 0 then 1 else if total_warnings > 0 then 2 else 0

/-! ### `lint_workflows.py` rules cited by the claims -/

/-- The accumulating `LintResult` of `lint_workflows.py`. -/
structure LintResult where
  errors : List String := []
  warnings : List String := []
  infos : List String := []
  deriving DecidableEq

/-- `result.error(msg)`. -/
def LintResult.error (r : LintResult) (msg : String) : LintResult :=
  { r with errors := r.errors ++ [msg] }

/-- `result.warn(msg)`. -/
def LintResult.warn (r : LintResult) (msg : String) : LintResult :=
  { r with warnings := r.warnings ++ [msg] }

namespace Lint

/-- `lint_workflows.check_switch_node_fallback` (lines 282–291): warns when the
switch node's options carry no `fallbackOutput` key at all. -/
def check_switch_node_fallback (node : Node) (result : LintResult) : LintResult :=
  let options := jgetD node.parameters "options" (.obj [])
  let hasKey :=
    match options with
    | .obj kvs => jHasKey kvs "fallbackOutput"
    | _ => false
  if !hasKey then
    result.warn ("'" ++ node.name ++
      "': Switch node has no fallback output - unmatched cases will produce no output")
  else result

/-- `lint_workflows.check_merge_node_config` (lines 315–327): empty parameters
are an error, a missing `mode` key is a warning. -/
def check_merge_node_config (node : Node) (result : LintResult) : LintResult :=
  if node.parameters.isEmpty then
    result.error ("'" ++ node.name ++
      "': Merge node has empty parameters - needs mode and numberInputs")
  else if !jHasKey node.parameters "mode" then
    result.warn ("'" ++ node.name ++
      "': Merge node missing 'mode' parameter (should usually be 'append')")
  else result

end Lint

/-! ### Properties of the BFS work loop -/

/-- Anything already visited stays in the BFS result. -/
theorem bfsAux_mem_vis (adj : String → List String) :
    ∀ fuel q vis x, x ∈ vis → x ∈ bfsAux adj fuel q vis := by
  intro fuel
  induction fuel with
  | zero => intro q vis x hx; simpa [bfsAux] using hx
  | succ f ih =>
    intro q vis x hx
    match q with
    | [] => simpa [bfsAux] using hx
    | n :: q' =>
      by_cases hn : n ∈ vis
      · rw [bfsAux, if_pos hn]; exact ih q' vis x hx
      · rw [bfsAux, if_neg hn]
        exact ih _ _ x (List.mem_append_left _ hx)

/-- The BFS result is contained in any set that contains the queue and the
visited list and is closed under the adjacency function. -/
theorem bfsAux_minimal (adj : String → List String) (S : String → Prop)
    (hS : ∀ a, S a → ∀ t ∈ adj a, S t) :
    ∀ fuel q vis, (∀ x ∈ q, S x) → (∀ x ∈ vis, S x) →
      ∀ x ∈ bfsAux adj fuel q vis, S x := by
  intro fuel
  induction fuel with
  | zero => intro q vis _ hvis x hx; exact hvis x (by simpa [bfsAux] using hx)
  | succ f ih =>
    intro q vis hq hvis x hx
    match q with
    | [] => exact hvis x (by simpa [bfsAux] using hx)
    | n :: q' =>
      by_cases hn : n ∈ vis
      · rw [bfsAux, if_pos hn] at hx
        exact ih q' vis (fun y hy => hq y (List.mem_cons_of_mem _ hy)) hvis x hx
      · rw [bfsAux, if_neg hn] at hx
        refine ih _ _ ?_ ?_ x hx
        · intro y hy
          rcases List.mem_append.mp hy with hy | hy
          · exact hq y (List.mem_cons_of_mem _ hy)
          · exact hS n (hq n (List.mem_cons_self n q')) y (List.mem_filter.mp hy).1
        · intro y hy
          rcases List.mem_append.mp hy with hy | hy
          · exact hvis y hy
          · rw [List.mem_singleton.mp hy]; exact hq n (List.mem_cons_self n q')

/-- The weight of the not-yet-visited adjacency lists, counted over a key
list `K`. -/
def adjWeight (adj : String → List String) (K vis : List String) : Nat :=
  ((K.filter (fun k => ¬ k ∈ vis)).map (fun k => (adj k).length)).sum

/-- The BFS termination potential: queue length plus unvisited weight. -/
def bfsPot (adj : String → List String) (K q vis : List String) : Nat :=
  q.length + adjWeight adj K vis

theorem adjWeight_nonkey (adj : String → List String) (K vis : List String)
    (n : String) (hn : n ∉ K) :
    adjWeight adj K (vis ++ [n]) = adjWeight adj K vis := by
  unfold adjWeight
  have hf : List.filter (fun k => decide (k ∉ vis ++ [n])) K
      = List.filter (fun k => decide (k ∉ vis)) K := by
    apply List.filter_congr
    intro k hk
    have hkn : k ≠ n := fun h => hn (h ▸ hk)
    rw [decide_eq_decide]
    simp [List.mem_append, hkn]
  rw [hf]

theorem adjWeight_key (adj : String → List String) :
    ∀ (K : List String), K.Nodup → ∀ (vis : List String) (n : String),
      n ∈ K → n ∉ vis →
      adjWeight adj K (vis ++ [n]) + (adj n).length = adjWeight adj K vis := by
  intro K
  induction K with
  | nil => intro _ vis n hn; exact absurd hn (List.not_mem_nil n)
  | cons k K' ih =>
    intro hnd vis n hnK hnv
    have hnd' : K'.Nodup := hnd.of_cons
    by_cases hk : k = n
    · subst hk
      have hkK' : k ∉ K' := (List.nodup_cons.mp hnd).1
      have h1 : adjWeight adj (k :: K') (vis ++ [k]) = adjWeight adj K' (vis ++ [k]) := by
        unfold adjWeight
        rw [List.filter_cons]
        simp [List.mem_append]
      have h2 : adjWeight adj K' (vis ++ [k]) = adjWeight adj K' vis :=
        adjWeight_nonkey adj K' vis k hkK'
      have h3 : adjWeight adj (k :: K') vis = (adj k).length + adjWeight adj K' vis := by
        unfold adjWeight
        rw [List.filter_cons]
        simp [hnv]
      rw [h1, h2, h3]; omega
    · have hnK' : n ∈ K' := by
        rcases List.mem_cons.mp hnK with h | h
        · exact absurd h.symm hk
        · exact h
      have hstep : ∀ vs : List String,
          adjWeight adj (k :: K') vs =
            (if k ∈ vs then 0 else (adj k).length) + adjWeight adj K' vs := by
        intro vs
        unfold adjWeight
        rw [List.filter_cons]
        by_cases hkv : k ∈ vs <;> simp [hkv]
      rw [hstep, hstep]
      have hmem : (k ∈ vis ++ [n]) ↔ k ∈ vis := by
        simp [List.mem_append, hk]
      have := ih hnd' vis n hnK' hnv
      by_cases hkv : k ∈ vis
      · rw [if_pos (hmem.mpr hkv), if_pos hkv]; omega
      · rw [if_neg (fun h => hkv (hmem.mp h)), if_neg hkv]; omega

theorem bfsPot_step_unvisited (adj : String → List String) (K : List String)
    (hK : K.Nodup) (hsupp : ∀ m, m ∉ K → adj m = [])
    (n : String) (q' vis : List String) (hn : n ∉ vis) :
    bfsPot adj K (q' ++ (adj n).filter (fun m => ¬ m ∈ (vis ++ [n]))) (vis ++ [n])
      < bfsPot adj K (n :: q') vis := by
  unfold bfsPot
  by_cases hnK : n ∈ K
  · have hw := adjWeight_key adj K hK vis n hnK hn
    have hlen : ((adj n).filter (fun m => ¬ m ∈ (vis ++ [n]))).length ≤ (adj n).length :=
      List.length_filter_le _ _
    simp only [List.length_append, List.length_cons]
    omega
  · have hadj : adj n = [] := hsupp n hnK
    have hw := adjWeight_nonkey adj K vis n hnK
    simp only [hadj, List.filter_nil, List.append_nil, List.length_cons]
    omega

/-- With enough fuel, every queued vertex ends up in the BFS result, and the
result is closed under the adjacency function. -/
theorem bfsAux_adequate (adj : String → List String) (K : List String)
    (hK : K.Nodup) (hsupp : ∀ m, m ∉ K → adj m = []) :
    ∀ fuel q vis, bfsPot adj K q vis < fuel →
      (∀ a ∈ vis, ∀ t ∈ adj a, t ∈ vis ∨ t ∈ q) →
      (∀ x ∈ q, x ∈ bfsAux adj fuel q vis) ∧
        (∀ a ∈ bfsAux adj fuel q vis, ∀ t ∈ adj a, t ∈ bfsAux adj fuel q vis) := by
  intro fuel
  induction fuel with
  | zero => intro q vis hpot; exact absurd hpot (Nat.not_lt_zero _)
  | succ f ih =>
    intro q vis hpot hinv
    match q with
    | [] =>
      constructor
      · intro x hx; exact absurd hx (List.not_mem_nil x)
      · intro a ha t ht
        rw [bfsAux] at ha ⊢
        rcases hinv a ha t ht with h | h
        · exact h
        · exact absurd h (List.not_mem_nil t)
    | n :: q' =>
      by_cases hn : n ∈ vis
      · rw [bfsAux, if_pos hn]
        have hpot' : bfsPot adj K q' vis < f := by
          unfold bfsPot at hpot ⊢
          simp only [List.length_cons] at hpot
          omega
        have hinv' : ∀ a ∈ vis, ∀ t ∈ adj a, t ∈ vis ∨ t ∈ q' := by
          intro a ha t ht
          rcases hinv a ha t ht with h | h
          · exact Or.inl h
          · rcases List.mem_cons.mp h with h | h
            · exact Or.inl (h ▸ hn)
            · exact Or.inr h
        obtain ⟨hq, hcl⟩ := ih q' vis hpot' hinv'
        refine ⟨?_, hcl⟩
        intro x hx
        rcases List.mem_cons.mp hx with h | h
        · exact bfsAux_mem_vis adj f q' vis x (h ▸ hn)
        · exact hq x h
      · rw [bfsAux, if_neg hn]
        have hpot' := bfsPot_step_unvisited adj K hK hsupp n q' vis hn
        have hinv' : ∀ a ∈ vis ++ [n], ∀ t ∈ adj a,
            t ∈ vis ++ [n] ∨ t ∈ q' ++ (adj n).filter (fun m => ¬ m ∈ (vis ++ [n])) := by
          intro a ha t ht
          rcases List.mem_append.mp ha with ha | ha
          · rcases hinv a ha t ht with h | h
            · exact Or.inl (List.mem_append_left _ h)
            · rcases List.mem_cons.mp h with h | h
              · exact Or.inl (List.mem_append_right _ (by simp [h]))
              · exact Or.inr (List.mem_append_left _ h)
          · have ha' : a = n := List.mem_singleton.mp ha
            rw [ha'] at ht
            by_cases htv : t ∈ vis ++ [n]
            · exact Or.inl htv
            · refine Or.inr (List.mem_append_right _ ?_)
              exact List.mem_filter.mpr ⟨ht, by simpa using htv⟩
        obtain ⟨hq, hcl⟩ := ih _ _ (by omega) hinv'
        refine ⟨?_, hcl⟩
        intro x hx
        rcases List.mem_cons.mp hx with h | h
        · exact bfsAux_mem_vis adj f _ _ x (by simp [h])
        · exact hq x (List.mem_append_left _ h)

/-- The BFS result is independent of the fuel, once the fuel exceeds the
potential. -/
theorem bfsAux_fuel_eq (adj : String → List String) (K : List String)
    (hK : K.Nodup) (hsupp : ∀ m, m ∉ K → adj m = []) :
    ∀ f₁ f₂ q vis, bfsPot adj K q vis < f₁ → bfsPot adj K q vis < f₂ →
      bfsAux adj f₁ q vis = bfsAux adj f₂ q vis := by
  intro f₁
  induction f₁ with
  | zero => intro f₂ q vis h1; exact absurd h1 (Nat.not_lt_zero _)
  | succ a ih =>
    intro f₂ q vis h1 h2
    match f₂ with
    | 0 => exact absurd h2 (Nat.not_lt_zero _)
    | b + 1 =>
      match q with
      | [] => rw [bfsAux, bfsAux]
      | n :: q' =>
        by_cases hn : n ∈ vis
        · rw [bfsAux, if_pos hn, bfsAux, if_pos hn]
          have hpot' : bfsPot adj K q' vis + 1 = bfsPot adj K (n :: q') vis := by
            unfold bfsPot; simp only [List.length_cons]; omega
          exact ih b q' vis (by omega) (by omega)
        · rw [bfsAux, if_neg hn, bfsAux, if_neg hn]
          have hpot' := bfsPot_step_unvisited adj K hK hsupp n q' vis hn
          exact ih b _ _ (by omega) (by omega)

/-- Two adjacency functions that agree on the BFS result produce the same BFS
run. -/
theorem bfsAux_congr (adj adj' : String → List String) :
    ∀ fuel q vis, (∀ n ∈ bfsAux adj fuel q vis, adj' n = adj n) →
      bfsAux adj' fuel q vis = bfsAux adj fuel q vis := by
  intro fuel
  induction fuel with
  | zero => intro q vis _; rw [bfsAux, bfsAux]
  | succ f ih =>
    intro q vis hagree
    match q with
    | [] => rw [bfsAux, bfsAux]
    | n :: q' =>
      by_cases hn : n ∈ vis
      · rw [bfsAux, if_pos hn, bfsAux, if_pos hn]
        refine ih q' vis ?_
        intro m hm
        exact hagree m (by rwa [bfsAux, if_pos hn])
      · rw [bfsAux, if_neg hn, bfsAux, if_neg hn]
        have hres : n ∈ bfsAux adj (f + 1) (n :: q') vis := by
          rw [bfsAux, if_neg hn]
          exact bfsAux_mem_vis adj f _ _ n (List.mem_append_right _ (by simp))
        have han : adj' n = adj n := hagree n hres
        rw [han]
        refine ih _ _ ?_
        intro m hm
        exact hagree m (by rwa [bfsAux, if_neg hn])

/-! ### Characterizing the built graph -/

/-- The target contributed by one connection entry: `conn.get("node")` when it
is truthy. -/
def connTgt (c : Conn) : Option String :=
  match c.node with
  | some t => if t == "" then none else some t
  | none => none

/-- All connection entries of one source, in iteration order. -/
def flatConns (outs : Outputs) : List Conn :=
  (outs.map (fun o => o.2.flatten)).flatten

/-- The truthy targets of one source's outputs, in iteration order. -/
def entryTargets (outs : Outputs) : List String :=
  (flatConns outs).filterMap connTgt

/-- The adjacency list that `find_dead_code` accumulates for a source name. -/
def srcTargets (conns : Connections) (s : String) : List String :=
  ((conns.filter (fun e => e.1 == s)).map (fun e => entryTargets e.2)).flatten

theorem lookupAdj_tab (keys : List String) (A : String → List String) (n : String) :
    lookupAdj (keys.map (fun k => (k, A k))) n = if n ∈ keys then A n else [] := by
  induction keys with
  | nil => simp [lookupAdj]
  | cons k ks ih =>
    by_cases hk : k = n
    · subst hk
      unfold lookupAdj
      simp [List.find?_cons_of_pos]
    · unfold lookupAdj at ih ⊢
      rw [List.map_cons, List.find?_cons_of_neg _ (by simpa using hk)]
      rw [ih]
      have : (n ∈ k :: ks) ↔ n ∈ ks := by simp [List.mem_cons, Ne.symm hk]
      by_cases hn : n ∈ ks
      · rw [if_pos hn, if_pos (this.mpr hn)]
      · rw [if_neg hn, if_neg (fun h => hn (this.mp h))]

theorem addTarget_tab (keys : List String) (A : String → List String) (s t : String) :
    addTarget (keys.map (fun k => (k, A k))) s t =
      keys.map (fun k => (k, if k = s then A k ++ [t] else A k)) := by
  unfold addTarget
  rw [List.map_map]
  apply List.map_congr_left
  intro k _
  by_cases hk : k = s <;> simp [hk]

theorem any_tab (keys : List String) (A : String → List String) (s : String) :
    (keys.map (fun k => (k, A k))).any (fun p => p.1 == s) = keys.any (fun k => k == s) := by
  induction keys with
  | nil => rfl
  | cons k ks ih => simp only [List.map_cons, List.any_cons, ih]

theorem addConn_of_node_none (g : List (String × List String)) (s : String) (c : Conn)
    (hc : c.node = none) : addConn g s c = g := by
  unfold addConn
  rw [hc]

theorem addConn_of_node_empty (g : List (String × List String)) (s : String) (c : Conn)
    (hc : c.node = some "") : addConn g s c = g := by
  unfold addConn
  rw [hc]
  simp

theorem addConn_of_node_some (g : List (String × List String)) (s : String) (c : Conn)
    (t : String) (hc : c.node = some t) (ht : t ≠ "")
    (hany : g.any (fun p => p.1 == s) = true) : addConn g s c = addTarget g s t := by
  unfold addConn
  rw [hc]
  simp [ht, hany]

theorem addConn_of_no_src (g : List (String × List String)) (s : String) (c : Conn)
    (t : String) (hc : c.node = some t)
    (hany : g.any (fun p => p.1 == s) = false) : addConn g s c = g := by
  unfold addConn
  rw [hc]
  simp [hany]

theorem foldl_addConn_tab_mem (keys : List String) (s : String) (hs : s ∈ keys) :
    ∀ (cs : List Conn) (A : String → List String),
      cs.foldl (fun g c => addConn g s c) (keys.map (fun k => (k, A k))) =
        keys.map (fun k => (k, A k ++ if k = s then cs.filterMap connTgt else [])) := by
  intro cs
  induction cs with
  | nil =>
    intro A
    simp only [List.foldl_nil, List.filterMap_nil]
    apply List.map_congr_left
    intro k _
    simp
  | cons c cs ih =>
    intro A
    rw [List.foldl_cons]
    match hc : c.node with
    | none =>
      rw [addConn_of_node_none _ _ _ hc, ih A]
      have hfm : (c :: cs).filterMap connTgt = cs.filterMap connTgt := by
        rw [List.filterMap_cons]
        simp [connTgt, hc]
      rw [hfm]
    | some t =>
      by_cases ht : t = ""
      · subst ht
        rw [addConn_of_node_empty _ _ _ hc, ih A]
        have hfm : (c :: cs).filterMap connTgt = cs.filterMap connTgt := by
          rw [List.filterMap_cons]
          simp [connTgt, hc]
        rw [hfm]
      · have hany : (keys.map (fun k => (k, A k))).any (fun p => p.1 == s) = true := by
          rw [any_tab]
          exact List.any_eq_true.mpr ⟨s, hs, by simp⟩
        rw [addConn_of_node_some _ _ _ t hc ht hany, addTarget_tab]
        rw [ih (fun k => if k = s then A k ++ [t] else A k)]
        apply List.map_congr_left
        intro k _
        have hfm : (c :: cs).filterMap connTgt = t :: cs.filterMap connTgt := by
          rw [List.filterMap_cons]
          simp [connTgt, hc, ht]
        rw [hfm]
        by_cases hk : k = s <;> simp [hk]

theorem foldl_addConn_tab_notmem (keys : List String) (s : String) (hs : s ∉ keys) :
    ∀ (cs : List Conn) (A : String → List String),
      cs.foldl (fun g c => addConn g s c) (keys.map (fun k => (k, A k))) =
        keys.map (fun k => (k, A k)) := by
  intro cs
  induction cs with
  | nil => intro A; rfl
  | cons c cs ih =>
    intro A
    rw [List.foldl_cons]
    match hc : c.node with
    | none => rw [addConn_of_node_none _ _ _ hc]; exact ih A
    | some t =>
      have hany : (keys.map (fun k => (k, A k))).any (fun p => p.1 == s) = false := by
        rw [any_tab]
        rw [List.any_eq_false]
        intro k hk h
        exact hs ((eq_of_beq h) ▸ hk)
      rw [addConn_of_no_src _ _ _ t hc hany]
      exact ih A

theorem foldl_flatten_eq {α β : Type _} (f : β → α → β) :
    ∀ (ls : List (List α)) (b : β),
      ls.flatten.foldl f b = ls.foldl (fun b xs => xs.foldl f b) b := by
  intro ls
  induction ls with
  | nil => intro b; rfl
  | cons xs ls ih =>
    intro b
    rw [List.flatten_cons, List.foldl_append, List.foldl_cons, ih]

theorem entry_fold_eq (s : String) (outs : Outputs) (g : List (String × List String)) :
    outs.foldl
      (fun g o => o.2.foldl (fun g out => out.foldl (fun g c => addConn g s c) g) g) g
      = (flatConns outs).foldl (fun g c => addConn g s c) g := by
  unfold flatConns
  rw [foldl_flatten_eq, List.foldl_map]
  induction outs generalizing g with
  | nil => rfl
  | cons o os ih =>
    rw [List.foldl_cons, List.foldl_cons]
    rw [foldl_flatten_eq]
    exact ih _

theorem buildGraph_tab (keys : List String) :
    ∀ (conns : Connections) (A : String → List String),
      conns.foldl
        (fun g e =>
          e.2.foldl
            (fun g o => o.2.foldl (fun g out => out.foldl (fun g c => addConn g e.1 c) g) g)
            g)
        (keys.map (fun k => (k, A k)))
      = keys.map (fun k => (k, A k ++ srcTargets conns k)) := by
  intro conns
  induction conns with
  | nil =>
    intro A
    simp only [List.foldl_nil]
    apply List.map_congr_left
    intro k _
    simp [srcTargets]
  | cons e rest ih =>
    intro A
    rw [List.foldl_cons, entry_fold_eq]
    by_cases he : e.1 ∈ keys
    · rw [foldl_addConn_tab_mem keys e.1 he (flatConns e.2) A]
      rw [ih (fun k => A k ++ if k = e.1 then (flatConns e.2).filterMap connTgt else [])]
      apply List.map_congr_left
      intro k _
      have hsrc : srcTargets (e :: rest) k =
          (if e.1 = k then entryTargets e.2 else []) ++ srcTargets rest k := by
        unfold srcTargets
        rw [List.filter_cons]
        by_cases hek : e.1 = k
        · rw [if_pos (by simpa using hek), if_pos hek]
          rw [List.map_cons, List.flatten_cons]
        · rw [if_neg (by simpa using hek), if_neg hek, List.nil_append]
      rw [hsrc]
      by_cases hk : k = e.1
      · rw [if_pos hk, if_pos hk.symm, ← List.append_assoc]; rfl
      · rw [if_neg hk, if_neg (fun h => hk h.symm), List.append_nil, List.nil_append]
    · rw [foldl_addConn_tab_notmem keys e.1 he (flatConns e.2) A]
      rw [ih A]
      apply List.map_congr_left
      intro k hk
      have hek : ¬ e.1 = k := fun h => he (h ▸ hk)
      unfold srcTargets
      rw [List.filter_cons, if_neg (by simpa using hek)]

theorem buildGraph_eq (keys : List String) (conns : Connections) :
    buildGraph keys conns = keys.map (fun k => (k, srcTargets conns k)) := by
  unfold buildGraph
  rw [show keys.map (fun k => (k, ([] : List String)))
      = keys.map (fun k => (k, (fun _ : String => ([] : List String)) k)) from rfl]
  rw [buildGraph_tab]
  apply List.map_congr_left
  intro k _
  rw [List.nil_append]

theorem lookupAdj_buildGraph (keys : List String) (conns : Connections) (n : String) :
    lookupAdj (buildGraph keys conns) n = if n ∈ keys then srcTargets conns n else [] := by
  rw [buildGraph_eq, lookupAdj_tab]

theorem buildGraph_mapfst (keys : List String) (conns : Connections) :
    (buildGraph keys conns).map Prod.fst = keys := by
  rw [buildGraph_eq, List.map_map]
  exact List.map_id keys

/-! ### The node dict -/

theorem dictInsert_mapfst (m : List (String × Node)) (k : String) (v : Node) :
    (dictInsert m k v).map Prod.fst =
      if m.any (fun p => p.1 == k) then m.map Prod.fst else m.map Prod.fst ++ [k] := by
  unfold dictInsert
  by_cases h : m.any (fun p => p.1 == k) = true
  · rw [if_pos h, if_pos h, List.map_map]
    apply List.map_congr_left
    intro p _
    by_cases hp : p.1 = k <;> simp [hp]
  · rw [if_neg h, if_neg h, List.map_append]
    rfl

theorem mem_dictInsert_mapfst (m : List (String × Node)) (k : String) (v : Node)
    (x : String) :
    x ∈ (dictInsert m k v).map Prod.fst ↔ x ∈ m.map Prod.fst ∨ x = k := by
  rw [dictInsert_mapfst]
  by_cases h : m.any (fun p => p.1 == k) = true
  · rw [if_pos h]
    have hk : k ∈ m.map Prod.fst := by
      obtain ⟨p, hp, he⟩ := List.any_eq_true.mp h
      have hpk : p.1 = k := by simpa using he
      exact hpk ▸ List.mem_map_of_mem Prod.fst hp
    constructor
    · exact Or.inl
    · rintro (hx | hx)
      · exact hx
      · exact hx ▸ hk
  · rw [if_neg h]
    simp [List.mem_append]

theorem foldl_dictInsert_nodup :
    ∀ (ns : List Node) (acc : List (String × Node)),
      (acc.map Prod.fst).Nodup →
      ((ns.foldl (fun m n => dictInsert m n.name n) acc).map Prod.fst).Nodup := by
  intro ns
  induction ns with
  | nil => intro acc h; exact h
  | cons n ns ih =>
    intro acc h
    rw [List.foldl_cons]
    apply ih
    rw [dictInsert_mapfst]
    by_cases hc : acc.any (fun p => p.1 == n.name) = true
    · rw [if_pos hc]; exact h
    · rw [if_neg hc]
      have hne : n.name ∉ acc.map Prod.fst := by
        intro hmem
        obtain ⟨p, hp, hpe⟩ := List.mem_map.mp hmem
        exact hc (List.any_eq_true.mpr ⟨p, hp, by simp [hpe]⟩)
      refine h.append (List.nodup_singleton _) ?_
      intro a ha hb
      rw [List.mem_singleton] at hb
      exact hne (hb ▸ ha)

theorem nodeKeys_nodup (wf : Workflow) : (nodeKeys wf).Nodup := by
  unfold nodeKeys nodesDict
  exact foldl_dictInsert_nodup wf.nodes [] (by simp)

theorem foldl_dictInsert_mem :
    ∀ (ns : List Node) (acc : List (String × Node)) (k : String),
      k ∈ (ns.foldl (fun m n => dictInsert m n.name n) acc).map Prod.fst ↔
        k ∈ acc.map Prod.fst ∨ k ∈ ns.map Node.name := by
  intro ns
  induction ns with
  | nil => intro acc k; simp
  | cons n ns ih =>
    intro acc k
    rw [List.foldl_cons, ih, mem_dictInsert_mapfst]
    simp only [List.map_cons, List.mem_cons]
    tauto

theorem mem_nodeKeys_iff (wf : Workflow) (k : String) :
    k ∈ nodeKeys wf ↔ k ∈ wf.nodes.map Node.name := by
  unfold nodeKeys nodesDict
  rw [foldl_dictInsert_mem]
  simp

/-! ### Reachability facts for a document -/

/-- The adjacency function of a document's built graph. -/
def adjOf (wf : Workflow) : String → List String :=
  lookupAdj (buildGraph (nodeKeys wf) wf.connections)

theorem adjOf_eq (wf : Workflow) (n : String) :
    adjOf wf n = if n ∈ nodeKeys wf then srcTargets wf.connections n else [] :=
  lookupAdj_buildGraph _ _ _

theorem adjOf_supp (wf : Workflow) : ∀ m, m ∉ nodeKeys wf → adjOf wf m = [] := by
  intro m hm
  rw [adjOf_eq, if_neg hm]

theorem bfsPot_lt_bfsFuel (wf : Workflow) :
    bfsPot (adjOf wf) (nodeKeys wf) (triggersOf wf) [] <
      bfsFuel (buildGraph (nodeKeys wf) wf.connections) (triggersOf wf) := by
  unfold bfsPot bfsFuel adjWeight
  have h1 : (nodeKeys wf).filter (fun k => ¬ k ∈ ([] : List String)) = nodeKeys wf := by
    apply List.filter_eq_self.mpr
    intro k _
    simp
  rw [h1]
  have h2 : (buildGraph (nodeKeys wf) wf.connections).map (fun p => p.2.length)
      = (nodeKeys wf).map (fun k => (adjOf wf k).length) := by
    rw [buildGraph_eq, List.map_map]
    apply List.map_congr_left
    intro k hk
    show (srcTargets wf.connections k).length = (adjOf wf k).length
    rw [adjOf_eq, if_pos hk]
  rw [h2]
  omega

theorem reachableOf_def (wf : Workflow) :
    reachableOf wf =
      bfsAux (adjOf wf)
        (bfsFuel (buildGraph (nodeKeys wf) wf.connections) (triggersOf wf))
        (triggersOf wf) [] := rfl

theorem triggers_subset_reachable (wf : Workflow) :
    ∀ x ∈ triggersOf wf, x ∈ reachableOf wf := by
  rw [reachableOf_def]
  exact (bfsAux_adequate (adjOf wf) (nodeKeys wf) (nodeKeys_nodup wf) (adjOf_supp wf)
    _ (triggersOf wf) [] (bfsPot_lt_bfsFuel wf) (by intro a ha; simp at ha)).1

theorem reachable_closed (wf : Workflow) :
    ∀ a ∈ reachableOf wf, ∀ t ∈ adjOf wf a, t ∈ reachableOf wf := by
  rw [reachableOf_def]
  exact (bfsAux_adequate (adjOf wf) (nodeKeys wf) (nodeKeys_nodup wf) (adjOf_supp wf)
    _ (triggersOf wf) [] (bfsPot_lt_bfsFuel wf) (by intro a ha; simp at ha)).2

theorem reachable_minimal (wf : Workflow) (S : String → Prop)
    (hS : ∀ a, S a → ∀ t ∈ adjOf wf a, S t)
    (htrig : ∀ x ∈ triggersOf wf, S x) :
    ∀ x ∈ reachableOf wf, S x := by
  rw [reachableOf_def]
  exact bfsAux_minimal (adjOf wf) S hS _ (triggersOf wf) [] htrig (by intro x hx; simp at hx)

/-! ### Derived views of `find_dead_code` -/

/-- The dead set before the AI-subnode exception: `set(nodes.keys()) - reachable`. -/
def deadPre (wf : Workflow) : List String :=
  (nodeKeys wf).filter (fun k => ¬ k ∈ reachableOf wf)

/-- Whether the document's node dict maps `m` to an AI-model-typed node. -/
def nodeIsAiModel (wf : Workflow) (m : String) : Bool :=
  match lookupNode (nodesDict wf.nodes) m with
  | some n => isAiModelType n.«type»
  | none => false

/-- Whether the document's node dict maps `c` to an AI-chain-typed node
(a name that is not a key reads as type `""`, which matches no chain type). -/
def nodeIsAiChain (wf : Workflow) (c : String) : Bool :=
  isAiChainType (typeOfName (nodesDict wf.nodes) c)

theorem find_dead_code_eq (wf : Workflow) :
    find_dead_code wf =
      ((if hasReachableAiChain wf then
          (deadPre wf).filter (fun k => ¬ nodeIsAiModel wf k = true)
        else deadPre wf),
       triggersOf wf) := rfl

theorem mem_deadPre (wf : Workflow) (k : String) :
    k ∈ deadPre wf ↔ k ∈ nodeKeys wf ∧ k ∉ reachableOf wf := by
  simp [deadPre, List.mem_filter]

theorem dead_sub (wf : Workflow) :
    ∀ k ∈ (find_dead_code wf).1, k ∈ nodeKeys wf ∧ k ∉ reachableOf wf := by
  intro k hk
  rw [find_dead_code_eq] at hk
  simp only at hk
  by_cases hchain : hasReachableAiChain wf
  · rw [if_pos hchain] at hk
    exact (mem_deadPre wf k).mp (List.mem_of_mem_filter hk)
  · rw [if_neg hchain] at hk
    exact (mem_deadPre wf k).mp hk

theorem hasChainScan_cons_none (nd : List (String × Node)) (name : String)
    (rest : List String) (hl : lookupNode nd name = none) :
    hasChainScan nd (name :: rest) = .error ("KeyError: " ++ name) := by
  conv_lhs => rw [hasChainScan]
  rw [hl]

theorem hasChainScan_cons_some (nd : List (String × Node)) (name : String)
    (rest : List String) (n : Node) (hl : lookupNode nd name = some n) :
    hasChainScan nd (name :: rest) =
      if isAiChainType n.«type» = true then .ok true else hasChainScan nd rest := by
  conv_lhs => rw [hasChainScan]
  rw [hl]

theorem hasChainScan_ok (nd : List (String × Node)) :
    ∀ (l : List String) (b : Bool), hasChainScan nd l = .ok b →
      l.any (fun name => isAiChainType (typeOfName nd name)) = b := by
  intro l
  induction l with
  | nil => intro b hb; cases hb; rfl
  | cons name rest ih =>
    intro b hb
    match hl : lookupNode nd name with
    | none =>
      rw [hasChainScan_cons_none nd name rest hl] at hb
      cases hb
    | some n =>
      rw [hasChainScan_cons_some nd name rest n hl] at hb
      by_cases hc : isAiChainType n.«type» = true
      · rw [if_pos hc] at hb
        cases hb
        simp only [List.any_cons, Bool.or_eq_true]
        left
        show isAiChainType (typeOfName nd name) = true
        unfold typeOfName
        rw [hl]
        exact hc
      · rw [if_neg hc] at hb
        have hrest := ih b hb
        simp only [List.any_cons, hrest]
        have hname : isAiChainType (typeOfName nd name) = false := by
          unfold typeOfName
          rw [hl]
          simpa using hc
        rw [hname]
        simp

theorem find_dead_code_checked_ok (wf : Workflow) (r : List String × List String) :
    find_dead_code_checked wf = .ok r → find_dead_code wf = r := by
  intro h
  unfold find_dead_code_checked at h
  simp only at h
  match hscan : hasChainScan (nodesDict wf.nodes) (reachableOf wf) with
  | .error e => rw [hscan] at h; cases h
  | .ok b =>
    rw [hscan] at h
    have hb : hasReachableAiChain wf = b :=
      hasChainScan_ok (nodesDict wf.nodes) (reachableOf wf) b hscan
    cases h
    rw [find_dead_code_eq, hb]
    rfl

/-! ### Concrete documents used by the witnesses and counterexamples -/

/-- A manual trigger node `T`. -/
def trigT : Node := { name := "T", «type» := "n8n-nodes-base.manualTrigger" }

/-- A code node `A`. -/
def codeA : Node := { name := "A", «type» := "n8n-nodes-base.code" }

/-- A code node `B`. -/
def codeB : Node := { name := "B", «type» := "n8n-nodes-base.code" }

/-- The spec's scenario document: trigger `T`, code `A` connected from `T`,
code `B` not connected to anything. -/
def orderFlow : Workflow :=
  { name := some "Order_Flow"
    nodes := [trigT, codeA, codeB]
    connections := [("T", [("main", [[⟨some "A"⟩]])])] }

/-- An AI chain node `C`. -/
def chainC : Node := { name := "C", «type» := "@n8n/n8n-nodes-langchain.chainLlm" }

/-- An AI model node `M`. -/
def modelM : Node := { name := "M", «type» := "@n8n/n8n-nodes-langchain.lmChatOpenRouter" }

/-- One reachable chain node and one unconnected model node. -/
def chainDoc : Workflow :=
  { nodes := [trigT, chainC, modelM]
    connections := [("T", [("main", [[⟨some "C"⟩]])])] }

/-- Same document but with the chain node itself unreachable. -/
def chainDocUnreach : Workflow := { nodes := [trigT, chainC, modelM] }

/-- A trigger whose only connection points at a node name that does not exist. -/
def ghostDoc : Workflow :=
  { nodes := [trigT], connections := [("T", [("main", [[⟨some "Ghost"⟩]])])] }

/-- A merge node with empty parameters. -/
def mergeM1 : Node := { name := "M1", «type» := "n8n-nodes-base.merge" }

/-- Trigger `T` connected to the empty-parameter merge node `M1`. -/
def mergeDoc : Workflow :=
  { nodes := [trigT, mergeM1]
    connections := [("T", [("main", [[⟨some "M1"⟩]])])] }

/-- An Execute Workflow node using by-identifier mode with a known target. -/
def execE : Node :=
  { name := "E", «type» := "n8n-nodes-base.executeWorkflow"
    parameters :=
      [("workflowId", .obj [("mode", .str "id"), ("cachedResultName", .str "Known")])] }

/-- An Execute Workflow node in by-name mode referencing a missing name. -/
def execListMissing : Node :=
  { name := "E", «type» := "n8n-nodes-base.executeWorkflow"
    parameters :=
      [("workflowId",
        .obj [("mode", .str "list"), ("cachedResultName", .str "Missing")])] }

/-- Trigger `T` connected to the by-identifier Execute Workflow node `E`. -/
def execModeDoc : Workflow :=
  { nodes := [trigT, execE]
    connections := [("T", [("main", [[⟨some "E"⟩]])])] }

/-- A version-3 switch node with `fallbackOutput = "maybe"`. -/
def swMaybe : Node :=
  { name := "SW", «type» := "n8n-nodes-base.switch", typeVersion := 3
    parameters := [("options", .obj [("fallbackOutput", .str "maybe")])] }

/-- A version-3 switch node with `fallbackOutput = "none"`. -/
def swNone : Node :=
  { name := "SW", «type» := "n8n-nodes-base.switch", typeVersion := 3
    parameters := [("options", .obj [("fallbackOutput", .str "none")])] }

/-- A version-3 switch node whose options carry no fallback key at all. -/
def swAbsent : Node :=
  { name := "SW", «type» := "n8n-nodes-base.switch", typeVersion := 3
    parameters := [("options", .obj [])] }

/-- Trigger `T` connected to the `fallbackOutput = "maybe"` switch node. -/
def swMaybeDoc : Workflow :=
  { nodes := [trigT, swMaybe]
    connections := [("T", [("main", [[⟨some "SW"⟩]])])] }

/-- Trigger `T` connected to the `fallbackOutput = "none"` switch node. -/
def swNoneDoc : Workflow :=
  { nodes := [trigT, swNone]
    connections := [("T", [("main", [[⟨some "SW"⟩]])])] }

/-! ### Claim C4 -/

/-- C4: for every document, the dead set of `find_dead_code` is contained in
the node set minus the trigger set — a node identified as a trigger is never
marked dead, whatever its connectivity. -/
theorem dead_subset_nodes_minus_triggers (wf : Workflow) :
    ∀ n ∈ (find_dead_code wf).1, n ∈ nodeKeys wf ∧ n ∉ (find_dead_code wf).2 := by
  intro n hn
  obtain ⟨hk, hr⟩ := dead_sub wf n hn
  refine ⟨hk, fun ht => hr ?_⟩
  have hts : (find_dead_code wf).2 = triggersOf wf := rfl
  rw [hts] at ht
  exact triggers_subset_reachable wf n ht

/-- Witness for C4 at the scenario document: `B` is dead there, is a node
name, and is not a trigger. -/
theorem dead_subset_nodes_minus_triggers_witness :
    "B" ∈ (find_dead_code orderFlow).1 ∧
      "B" ∈ nodeKeys orderFlow ∧ "B" ∉ (find_dead_code orderFlow).2 := by
  have h := dead_subset_nodes_minus_triggers orderFlow "B" (by decide)
  exact ⟨by decide, h.1, h.2⟩

/-! ### Claim C1 -/

/-- C1: whenever some AI-chain-typed node is in the reachable set, every
AI-model-typed node is excluded from the dead set, regardless of its own
connectivity (the rescue is document-wide); when no reachable node is
chain-typed, an unreachable model node stays in the dead set. -/
theorem chain_model_exception (wf : Workflow) (c m : String) :
    (c ∈ reachableOf wf → nodeIsAiChain wf c = true → nodeIsAiModel wf m = true →
      m ∉ (find_dead_code wf).1) ∧
    ((∀ r ∈ reachableOf wf, nodeIsAiChain wf r = false) → m ∈ nodeKeys wf →
      nodeIsAiModel wf m = true → m ∉ reachableOf wf → m ∈ (find_dead_code wf).1) := by
  constructor
  · intro hc hchain hmodel hmem
    have hHas : hasReachableAiChain wf = true :=
      List.any_eq_true.mpr ⟨c, hc, hchain⟩
    rw [find_dead_code_eq] at hmem
    simp only [if_pos hHas] at hmem
    have := (List.mem_filter.mp hmem).2
    rw [hmodel] at this
    simp at this
  · intro hnochain hkeys hmodel hreach
    have hHas : hasReachableAiChain wf = false :=
      List.any_eq_false.mpr (by
        intro r hr
        have h := hnochain r hr
        unfold nodeIsAiChain at h
        simp [h])
    rw [find_dead_code_eq]
    simp only [if_neg (by rw [hHas]; simp : ¬ hasReachableAiChain wf = true)]
    exact (mem_deadPre wf m).mpr ⟨hkeys, hreach⟩

/-- Witness for C1: in `chainDoc` the unconnected model node `M` is rescued;
in `chainDocUnreach` (chain node unreachable) it is dead. -/
theorem chain_model_exception_witness :
    "M" ∉ (find_dead_code chainDoc).1 ∧ "M" ∈ (find_dead_code chainDocUnreach).1 := by
  constructor
  · exact (chain_model_exception chainDoc "C" "M").1 (by decide) (by decide) (by decide)
  · exact (chain_model_exception chainDocUnreach "C" "M").2
      (by decide) (by decide) (by decide) (by decide)

/-! ### Claim C9 -/

/-- C9: contrary to the claim, `find_dead_code` is not total: on a document
whose trigger points at a non-existent node and which has no AI chain node,
the AI-subnode scan evaluates `nodes["Ghost"]` and raises `KeyError`. -/
theorem find_dead_code_ghost_keyerror :
    find_dead_code_checked ghostDoc = Except.error "KeyError: Ghost" := by rfl

/-! ### Claim C10 -/

/-- C10: with an empty dead set, `fix_workflow` returns `False` and leaves the
file content untouched; with an unreadable or unparsable file it likewise
returns `False` and writes nothing. -/
theorem fix_workflow_frame (disk : Option Workflow) (dead_nodes : List String) :
    (dead_nodes = [] → fix_workflow disk dead_nodes = (disk, false)) ∧
    (disk = none → fix_workflow disk dead_nodes = (none, false)) := by
  constructor
  · intro h
    subst h
    rfl
  · intro h
    subst h
    unfold fix_workflow
    by_cases hd : dead_nodes.isEmpty
    · rw [if_pos hd]
    · rw [if_neg hd]

/-- Witness for C10: the empty dead set and the unreadable file each produce
`(unchanged content, False)` on concrete inputs. -/
theorem fix_workflow_frame_witness :
    fix_workflow (some orderFlow) [] = (some orderFlow, false) ∧
      fix_workflow none ["B"] = (none, false) := by
  exact ⟨(fix_workflow_frame (some orderFlow) []).1 rfl,
    (fix_workflow_frame none ["B"]).2 rfl⟩

/-! ### Claim C5 -/

/-- C5 (amended): the integrity CLI follows the claimed policy — exit 1 on any
error, exit 2 only for warnings-with-strict, exit 0 otherwise — while the lint
CLI has no strict flag and exits 2 whenever only warnings are present. -/
theorem exit_code_policy (strict : Bool) (e w : Nat) :
    (0 < e → integrityExitCode strict e w = 1 ∧ lintExitCode e w = 1) ∧
    (e = 0 → 0 < w →
      integrityExitCode true e w = 2 ∧ integrityExitCode false e w = 0 ∧
        lintExitCode e w = 2) ∧
    (e = 0 → w = 0 → integrityExitCode strict e w = 0 ∧ lintExitCode e w = 0) := by
  unfold integrityExitCode lintExitCode
  refine ⟨?_, ?_, ?_⟩
  · intro he
    rw [if_pos he, if_pos he]
    exact ⟨rfl, rfl⟩
  · intro he hw
    subst he
    simp [hw]
  · intro he hw
    subst he
    subst hw
    simp

/-- Witness for C5's amended statement at concrete counts. -/
theorem exit_code_policy_witness :
    integrityExitCode false 0 1 = 0 ∧ lintExitCode 0 1 = 2 ∧ lintExitCode 2 0 = 1 := by
  refine ⟨((exit_code_policy false 0 1).2.1 rfl (by decide)).2.1,
    ((exit_code_policy false 0 1).2.1 rfl (by decide)).2.2,
    ((exit_code_policy false 2 0).1 (by decide)).2⟩

/-- C5 counterexample: a run with no errors and one warning exits with code 2
from the lint CLI even though no strict mode was (or could be) requested,
contradicting "without the strict flag a run producing only warnings exits
with code 0". -/
theorem lint_exit_warnings_only : lintExitCode 0 1 = 2 ∧ lintExitCode 0 1 ≠ 0 := by
  decide

/-! ### Claim C6 -/

theorem jget_eq_none_of_not_hasKey (kvs : List (String × JVal)) (k : String)
    (h : jHasKey kvs k = false) : jget kvs k = none := by
  unfold jget
  have hf : kvs.reverse.find? (fun p => p.1 == k) = none := by
    rw [List.find?_eq_none]
    intro p hp
    rw [List.mem_reverse] at hp
    simpa using List.any_eq_false.mp h p hp
  rw [hf]
  rfl

/-- C6 (amended): in `lint_workflows`, a merge node with empty parameters
yields exactly one error-severity diagnostic and no warning, non-empty
parameters without a `mode` key yield exactly one warning and no error, and a
`mode` key yields nothing; in `workflow_integrity`'s validator the same two
conditions produce the corresponding single diagnostic, but a merge node
contributes only warning-severity diagnostics there (its rule output is routed
to warnings and never to errors). -/
theorem merge_rule_severities (node : Node) :
    (node.parameters = [] →
      (Lint.check_merge_node_config node {}).errors.length = 1 ∧
        (Lint.check_merge_node_config node {}).warnings = []) ∧
    (node.parameters ≠ [] → jHasKey node.parameters "mode" = false →
      (Lint.check_merge_node_config node {}).errors = [] ∧
        (Lint.check_merge_node_config node {}).warnings.length = 1) ∧
    (jHasKey node.parameters "mode" = true →
      Lint.check_merge_node_config node {} = {}) ∧
    (node.parameters = [] →
      check_merge_node_config node = [.mergeEmptyParams node.name]) ∧
    (node.parameters ≠ [] → jHasKey node.parameters "mode" = false →
      check_merge_node_config node = [.mergeMissingMode node.name]) ∧
    (jHasKey node.parameters "mode" = true → check_merge_node_config node = []) ∧
    (get_node_type node.«type» = "merge" →
      strContains node.«type» "executeWorkflowTrigger" = false →
      ∀ names, nodeErrors names node = [] ∧
        nodeWarnings node = check_merge_node_config node) := by
  have hne : ∀ {p : List (String × JVal)}, jHasKey p "mode" = true → p ≠ [] := by
    intro p hp h
    subst h
    cases hp
  refine ⟨?_, ?_, ?_, ?_, ?_, ?_, ?_⟩
  · intro h
    unfold Lint.check_merge_node_config
    rw [if_pos (by simp [h])]
    exact ⟨rfl, rfl⟩
  · intro h hk
    unfold Lint.check_merge_node_config
    rw [if_neg (by simpa using h), if_pos (by simp [hk])]
    exact ⟨rfl, rfl⟩
  · intro hk
    unfold Lint.check_merge_node_config
    rw [if_neg (by simpa using hne hk), if_neg (by simp [hk])]
  · intro h
    unfold check_merge_node_config
    rw [if_pos (by simp [h])]
  · intro h hk
    unfold check_merge_node_config
    rw [if_neg (by simpa using h), if_pos (by simp [hk])]
  · intro hk
    unfold check_merge_node_config
    rw [if_neg (by simpa using hne hk), if_neg (by simp [hk])]
  · intro ht hnt names
    constructor
    · unfold nodeErrors
      rw [ht]
      simp
    · unfold nodeWarnings check_empty_trigger
      rw [ht, if_neg (by simp [hnt])]
      simp [check_postgres_query_params]

/-- Witness for C6's amended statement: the empty-parameter merge node of the
repository's shape produces one lint error and a single integrity diagnostic. -/
theorem merge_rule_severities_witness :
    (Lint.check_merge_node_config mergeM1 {}).errors.length = 1 ∧
      check_merge_node_config mergeM1 = [.mergeEmptyParams "M1"] := by
  exact ⟨((merge_rule_severities mergeM1).1 rfl).1,
    (merge_rule_severities mergeM1).2.2.2.1 rfl⟩

/-- C6 counterexample: in `workflow_integrity.validate_workflow`, the reachable
merge node `M1` with empty parameters produces no error-severity diagnostic at
all — the report is a single warning, so "empty parameters produce one
error-severity diagnostic" fails on this validator. -/
theorem merge_empty_params_is_warning :
    (validate_workflow [] mergeDoc).errors = [] ∧
      (validate_workflow [] mergeDoc).warnings = [Diag.mergeEmptyParams "M1"] := by
  decide

/-! ### Claim C7 -/

/-- Whether the node's options object carries a `fallbackOutput` key at all
(the condition of the lint rule). -/
def optionsHasFallback (node : Node) : Bool :=
  match jgetD node.parameters "options" (.obj []) with
  | .obj kvs => jHasKey kvs "fallbackOutput"
  | _ => false

/-- The fallback value read by the integrity rule. -/
def fallbackOf (node : Node) : Option JVal :=
  pyObjGet (jgetD node.parameters "options" (.obj [])) "fallbackOutput"

theorem fallbackOf_eq_none_of_absent (node : Node)
    (h : optionsHasFallback node = false) : fallbackOf node = none := by
  unfold optionsHasFallback at h
  unfold fallbackOf pyObjGet objGet
  revert h
  cases hj : jgetD node.parameters "options" (.obj []) with
  | obj kvs =>
    intro h
    have h' : jHasKey kvs "fallbackOutput" = false := h
    show (match jget kvs "fallbackOutput" with
      | some JVal.null => none
      | r => r) = none
    rw [jget_eq_none_of_not_hasKey kvs "fallbackOutput" h']
  | null => intro _; rfl
  | bool b => intro _; rfl
  | num n => intro _; rfl
  | str s => intro _; rfl
  | arr a => intro _; rfl

theorem check_switch_eq (node : Node) :
    check_switch_node_config node =
      if 3 ≤ node.typeVersion then
        (match fallbackOf node with
         | none => []
         | some (.str s) =>
           if s ≠ "extra" ∧ s ≠ "none" then [.switchFallbackInvalid node.name s] else []
         | some v => [.switchFallbackNotString node.name v])
      else [] := rfl

theorem lint_switch_fallback_absent (node : Node) (r : LintResult)
    (h : optionsHasFallback node = false) :
    Lint.check_switch_node_fallback node r =
      r.warn ("'" ++ node.name ++
        "': Switch node has no fallback output - unmatched cases will produce no output") := by
  show (if ((!optionsHasFallback node) = true) then _ else _) = _
  rw [h]
  rfl

theorem lint_switch_fallback_present (node : Node) (r : LintResult)
    (h : optionsHasFallback node = true) :
    Lint.check_switch_node_fallback node r = r := by
  show (if ((!optionsHasFallback node) = true)
      then r.warn ("'" ++ node.name ++
        "': Switch node has no fallback output - unmatched cases will produce no output")
      else r) = r
  rw [h]
  rfl

/-- C7: for a switch node at `typeVersion ≥ 3`, a present fallback value other
than the sentinels `"extra"`/`"none"` produces exactly one error-severity
diagnostic (`"maybe"` → one error; `"none"` → zero), while an entirely absent
fallback key produces no integrity diagnostic and exactly one lint warning. -/
theorem switch_fallback_rule (node : Node) (h3 : 3 ≤ node.typeVersion) :
    (∀ v, fallbackOf node = some v → v ≠ .str "extra" → v ≠ .str "none" →
      (check_switch_node_config node).length = 1) ∧
    (fallbackOf node = some (.str "none") → check_switch_node_config node = []) ∧
    (optionsHasFallback node = false →
      check_switch_node_config node = [] ∧
        (Lint.check_switch_node_fallback node {}).warnings.length = 1 ∧
        (Lint.check_switch_node_fallback node {}).errors = []) ∧
    ((validate_workflow [] swMaybeDoc).errors = [.switchFallbackInvalid "SW" "maybe"] ∧
      statusOf (validate_workflow [] swMaybeDoc) = "FAIL" ∧
      (validate_workflow [] swNoneDoc).errors = [] ∧
      (validate_workflow [] swNoneDoc).warnings = []) := by
  refine ⟨?_, ?_, ?_, by decide⟩
  · intro v hv hex hnz
    rw [check_switch_eq, if_pos h3, hv]
    match v, hex, hnz with
    | .str s, hex, hnz =>
      have hs1 : s ≠ "extra" := fun h => hex (by rw [h])
      have hs2 : s ≠ "none" := fun h => hnz (by rw [h])
      simp [hs1, hs2]
    | .null, _, _ => rfl
    | .bool b, _, _ => rfl
    | .num n, _, _ => rfl
    | .arr a, _, _ => rfl
    | .obj o, _, _ => rfl
  · intro hv
    rw [check_switch_eq, if_pos h3, hv]
    simp
  · intro habs
    refine ⟨?_, ?_, ?_⟩
    · rw [check_switch_eq, if_pos h3, fallbackOf_eq_none_of_absent node habs]
    · rw [lint_switch_fallback_absent node {} habs]
      rfl
    · rw [lint_switch_fallback_absent node {} habs]
      rfl

/-- Witness for C7 at the concrete switch nodes. -/
theorem switch_fallback_rule_witness :
    (check_switch_node_config swMaybe).length = 1 ∧
      check_switch_node_config swNone = [] ∧
      (Lint.check_switch_node_fallback swAbsent {}).warnings.length = 1 := by
  refine ⟨(switch_fallback_rule swMaybe (by decide)).1 (.str "maybe") rfl
      (by decide) (by decide),
    (switch_fallback_rule swNone (by decide)).2.1 rfl,
    ((switch_fallback_rule swAbsent (by decide)).2.2.1 rfl).2.1⟩

/-! ### Claim C8 -/

theorem mem_loadWorkflowNames_aux :
    ∀ (files : List (String × Workflow)) (acc : List String) (x : String),
      x ∈ files.foldl
        (fun acc f =>
          let name := f.2.name.getD f.1
          if acc.contains name then acc else acc ++ [name]) acc ↔
      x ∈ acc ∨ ∃ f ∈ files, f.2.name.getD f.1 = x := by
  intro files
  induction files with
  | nil => intro acc x; simp
  | cons f fs ih =>
    intro acc x
    rw [List.foldl_cons, ih]
    have hstep : x ∈ (if acc.contains (f.2.name.getD f.1) then acc
        else acc ++ [f.2.name.getD f.1]) ↔ x ∈ acc ∨ f.2.name.getD f.1 = x := by
      by_cases hc : acc.contains (f.2.name.getD f.1) = true
      · rw [if_pos hc]
        have : f.2.name.getD f.1 ∈ acc := by
          simpa using hc
        constructor
        · exact Or.inl
        · rintro (h | h)
          · exact h
          · exact h ▸ this
      · rw [if_neg hc]
        simp [List.mem_append, eq_comm]
    rw [hstep]
    simp only [List.mem_cons]
    constructor
    · rintro ((h | h) | ⟨g, hg, he⟩)
      · exact Or.inl h
      · exact Or.inr ⟨f, Or.inl rfl, h⟩
      · exact Or.inr ⟨g, Or.inr hg, he⟩
    · rintro (h | ⟨g, (hg | hg), he⟩)
      · exact Or.inl (Or.inl h)
      · exact Or.inl (Or.inr (hg ▸ he))
      · exact Or.inr ⟨g, hg, he⟩

theorem mem_loadWorkflowNames (files : List (String × Workflow)) (x : String) :
    x ∈ loadWorkflowNames files ↔ ∃ f ∈ files, f.2.name.getD f.1 = x := by
  unfold loadWorkflowNames
  rw [mem_loadWorkflowNames_aux]
  simp

theorem check_exec_eq (names : List String) (node : Node) :
    check_execute_workflow_config names node =
      (let workflow_id := jgetD node.parameters "workflowId" (.obj [])
       if !workflow_id.truthy then [.execMissingWorkflowId node.name]
       else
         (if pyObjGet workflow_id "mode" ≠ some (.str "list") then
            [.execModeNotList node.name (pyObjGet workflow_id "mode")]
          else []) ++
         (match pyObjGet workflow_id "cachedResultName" with
          | some v =>
            if v.truthy && !inRegistry v names then [.execMissingRef node.name v]
            else []
          | none => [])) := rfl

/-- C8 (amended): a missing reference descriptor or a referenced name absent
from the Registry produces exactly one error-severity diagnostic, and adding a
document with that exact name to the Registry's input removes it; use of a
non-`"list"` reference mode also produces an error-severity diagnostic in the
integrity validator (not a warning — every Execute Workflow issue is routed to
errors, and such a node contributes no warnings). -/
theorem exec_workflow_rule (names : List String) (node : Node) (s : String) :
    (JVal.truthy (jgetD node.parameters "workflowId" (.obj [])) = false →
      check_execute_workflow_config names node = [.execMissingWorkflowId node.name]) ∧
    (JVal.truthy (jgetD node.parameters "workflowId" (.obj [])) = true →
      pyObjGet (jgetD node.parameters "workflowId" (.obj [])) "mode"
          = some (.str "list") →
      pyObjGet (jgetD node.parameters "workflowId" (.obj [])) "cachedResultName"
          = some (.str s) →
      s ≠ "" →
      (names.contains s = false →
        check_execute_workflow_config names node = [.execMissingRef node.name (.str s)]) ∧
      (names.contains s = true → check_execute_workflow_config names node = [])) ∧
    (JVal.truthy (jgetD node.parameters "workflowId" (.obj [])) = true →
      ∀ mo, pyObjGet (jgetD node.parameters "workflowId" (.obj [])) "mode" = mo →
        mo ≠ some (.str "list") →
        Diag.execModeNotList node.name mo ∈ check_execute_workflow_config names node) ∧
    (∀ (files : List (String × Workflow)) (stem : String) (wf2 : Workflow),
      wf2.name = some s → s ∈ loadWorkflowNames (files ++ [(stem, wf2)])) ∧
    (get_node_type node.«type» = "executeWorkflow" →
      strContains node.«type» "executeWorkflowTrigger" = false →
      nodeErrors names node = check_execute_workflow_config names node ∧
        nodeWarnings node = []) := by
  refine ⟨?_, ?_, ?_, ?_, ?_⟩
  · intro h
    rw [check_exec_eq]
    simp only [h]
    rfl
  · intro ht hmode hcache hs
    rw [check_exec_eq]
    simp only [ht, hmode, hcache]
    rw [if_neg (by simp)]
    constructor
    · intro hc
      have hreg : inRegistry (.str s) names = false := by
        unfold inRegistry
        exact hc
      simp [JVal.truthy, hreg, hs]
    · intro hc
      have hreg : inRegistry (.str s) names = true := by
        unfold inRegistry
        exact hc
      simp [JVal.truthy, hreg]
  · intro ht mo hmo hne
    rw [check_exec_eq]
    simp only [ht, hmo]
    rw [if_neg (by simp)]
    rw [if_pos hne]
    exact List.mem_append_left _ (List.mem_singleton.mpr rfl)
  · intro files stem wf2 hname
    rw [mem_loadWorkflowNames]
    exact ⟨(stem, wf2), List.mem_append_right _ (by simp), by simp [hname]⟩
  · intro ht hnt
    constructor
    · unfold nodeErrors
      rw [ht]
      simp
    · unfold nodeWarnings check_empty_trigger
      rw [ht, if_neg (by simp [hnt])]
      simp

/-- Witness for C8's amended statement at concrete inputs. -/
theorem exec_workflow_rule_witness :
    check_execute_workflow_config ["Known"] execListMissing
      = [.execMissingRef "E" (.str "Missing")] ∧
    Diag.execModeNotList "E" (some (.str "id")) ∈
      check_execute_workflow_config ["Known"] execE := by
  constructor
  · exact ((exec_workflow_rule ["Known"] execListMissing
      "Missing").2.1 (by decide) (by decide) (by decide) (by decide)).1 (by decide)
  · exact (exec_workflow_rule ["Known"] execE "Known").2.2.1 (by decide)
      (some (.str "id")) (by decide) (by decide)

/-- C8 counterexample: the reachable by-identifier Execute Workflow node `E`
of `execModeDoc` produces an error-severity diagnostic and no warning at all,
so "use of the unstable by-identifier mode produces a warning-severity
diagnostic" fails on the code. -/
theorem exec_mode_is_error :
    (validate_workflow ["Known"] execModeDoc).errors
        = [Diag.execModeNotList "E" (some (.str "id"))] ∧
      (validate_workflow ["Known"] execModeDoc).warnings = [] := by
  decide

/-! ### Claim C3 -/

/-- Whether a diagnostic is the synthetic dead-code diagnostic. -/
def Diag.isDeadCode : Diag → Bool
  | .deadCode _ => true
  | _ => false

theorem check_exec_no_deadCode (names : List String) (n : Node) :
    ∀ d ∈ check_execute_workflow_config names n, d.isDeadCode = false := by
  intro d hd
  rw [check_exec_eq] at hd
  simp only at hd
  by_cases h1 : (!(jgetD n.parameters "workflowId" (.obj [])).truthy) = true
  · rw [if_pos h1] at hd
    rw [List.mem_singleton] at hd
    subst hd
    rfl
  · rw [if_neg h1] at hd
    rcases List.mem_append.mp hd with hd | hd
    · by_cases h2 : pyObjGet (jgetD n.parameters "workflowId" (.obj [])) "mode"
          ≠ some (.str "list")
      · rw [if_pos h2] at hd
        rw [List.mem_singleton] at hd
        subst hd
        rfl
      · rw [if_neg h2] at hd
        cases hd
    · match hm : pyObjGet (jgetD n.parameters "workflowId" (.obj [])) "cachedResultName" with
      | some v =>
        rw [hm] at hd
        have hd' : d ∈ (if (v.truthy && !inRegistry v names) = true then
            [Diag.execMissingRef n.name v] else []) := hd
        by_cases h3 : (v.truthy && !inRegistry v names) = true
        · rw [if_pos h3] at hd'
          rw [List.mem_singleton] at hd'
          subst hd'
          rfl
        · rw [if_neg h3] at hd'
          cases hd'
      | none =>
        rw [hm] at hd
        have hd' : d ∈ ([] : List Diag) := hd
        cases hd' 

theorem check_switch_no_deadCode (n : Node) :
    ∀ d ∈ check_switch_node_config n, d.isDeadCode = false := by
  intro d hd
  rw [check_switch_eq] at hd
  by_cases h1 : 3 ≤ n.typeVersion
  · rw [if_pos h1] at hd
    match hf : fallbackOf n with
    | none =>
      rw [hf] at hd
      have hd' : d ∈ ([] : List Diag) := hd
      cases hd'
    | some (.str s) =>
      rw [hf] at hd
      have hd' : d ∈ (if s ≠ "extra" ∧ s ≠ "none" then
          [Diag.switchFallbackInvalid n.name s] else []) := hd
      by_cases h2 : s ≠ "extra" ∧ s ≠ "none"
      · rw [if_pos h2] at hd'
        rw [List.mem_singleton] at hd'
        subst hd'
        rfl
      · rw [if_neg h2] at hd'
        cases hd'
    | some .null =>
      rw [hf] at hd
      have hd' : d ∈ [Diag.switchFallbackNotString n.name .null] := hd
      rw [List.mem_singleton] at hd'
      subst hd'
      rfl
    | some (.bool b) =>
      rw [hf] at hd
      have hd' : d ∈ [Diag.switchFallbackNotString n.name (.bool b)] := hd
      rw [List.mem_singleton] at hd'
      subst hd'
      rfl
    | some (.num m) =>
      rw [hf] at hd
      have hd' : d ∈ [Diag.switchFallbackNotString n.name (.num m)] := hd
      rw [List.mem_singleton] at hd'
      subst hd'
      rfl
    | some (.arr a) =>
      rw [hf] at hd
      have hd' : d ∈ [Diag.switchFallbackNotString n.name (.arr a)] := hd
      rw [List.mem_singleton] at hd'
      subst hd'
      rfl
    | some (.obj o) =>
      rw [hf] at hd
      have hd' : d ∈ [Diag.switchFallbackNotString n.name (.obj o)] := hd
      rw [List.mem_singleton] at hd'
      subst hd'
      rfl
  · rw [if_neg h1] at hd
    cases hd

theorem nodeErrors_no_deadCode (names : List String) (n : Node) :
    ∀ d ∈ nodeErrors names n, d.isDeadCode = false := by
  intro d hd
  unfold nodeErrors at hd
  rcases List.mem_append.mp hd with hd | hd
  · by_cases h : (get_node_type n.«type» == "executeWorkflow") = true
    · rw [if_pos h] at hd
      exact check_exec_no_deadCode names n d hd
    · rw [if_neg h] at hd
      cases hd
  · by_cases h : (get_node_type n.«type» == "switch") = true
    · rw [if_pos h] at hd
      exact check_switch_no_deadCode n d hd
    · rw [if_neg h] at hd
      cases hd

theorem connErrors_no_deadCode (wf : Workflow) :
    ∀ d ∈ connErrors wf, d.isDeadCode = false := by
  intro d hd
  unfold connErrors at hd
  rw [List.mem_flatten] at hd
  obtain ⟨l, hl, hdl⟩ := hd
  rw [List.mem_map] at hl
  obtain ⟨e, _, he⟩ := hl
  subst he
  rcases List.mem_append.mp hdl with hd | hd
  · by_cases h : (!(wf.nodes.map (fun n => n.name)).contains e.1) = true
    · rw [if_pos h] at hd
      rw [List.mem_singleton] at hd
      subst hd
      rfl
    · rw [if_neg h] at hd
      cases hd
  · rw [List.mem_flatten] at hd
    obtain ⟨l2, hl2, hdl2⟩ := hd
    rw [List.mem_map] at hl2
    obtain ⟨o, _, ho⟩ := hl2
    subst ho
    rw [List.mem_flatten] at hdl2
    obtain ⟨l3, hl3, hdl3⟩ := hdl2
    rw [List.mem_map] at hl3
    obtain ⟨out, _, hout⟩ := hl3
    subst hout
    rw [List.mem_filterMap] at hdl3
    obtain ⟨c, _, hc⟩ := hdl3
    match hn : c.node with
    | some t =>
      rw [hn] at hc
      have hc' : (if (t != "" && !(wf.nodes.map (fun n => n.name)).contains t) = true
          then some (Diag.connToMissing e.1 t) else none) = some d := hc
      by_cases h : (t != "" && !(wf.nodes.map (fun n => n.name)).contains t) = true
      · rw [if_pos h] at hc'
        cases hc'
        rfl
      · rw [if_neg h] at hc'
        cases hc'
    | none =>
      rw [hn] at hc
      have hc' : (none : Option Diag) = some d := hc
      cases hc' 

theorem mem_insSorted (x y : String) :
    ∀ l : List String, y ∈ insSorted x l ↔ y = x ∨ y ∈ l := by
  intro l
  induction l with
  | nil => simp [insSorted]
  | cons a l ih =>
    unfold insSorted
    by_cases h : x ≤ a
    · rw [if_pos h]
      simp [List.mem_cons]
    · rw [if_neg h]
      simp only [List.mem_cons, ih]
      tauto

theorem mem_sortNames (x : String) (l : List String) :
    x ∈ sortNames l ↔ x ∈ l := by
  unfold sortNames
  induction l with
  | nil => simp
  | cons a l ih =>
    rw [List.foldr_cons, mem_insSorted]
    simp only [List.mem_cons, ih]

theorem validate_workflow_eq (names : List String) (wf : Workflow)
    (h : wf.isArchived = false) :
    validate_workflow names wf =
      { errors :=
          (if !(find_dead_code wf).1.isEmpty then
             [Diag.deadCode (sortNames (find_dead_code wf).1)]
           else []) ++
          (wf.nodes.map (nodeErrors names)).flatten ++ connErrors wf
        warnings :=
          (if (find_dead_code wf).2.isEmpty then [Diag.noTriggers] else []) ++
          (wf.nodes.map nodeWarnings).flatten
        info :=
          if ((if !(find_dead_code wf).1.isEmpty then
                [Diag.deadCode (sortNames (find_dead_code wf).1)]
              else []) ++
              (wf.nodes.map (nodeErrors names)).flatten ++ connErrors wf).isEmpty &&
             ((if (find_dead_code wf).2.isEmpty then [Diag.noTriggers] else []) ++
              (wf.nodes.map nodeWarnings).flatten).isEmpty then
            [Diag.allValidated wf.nodes.length]
          else []
        dead_nodes :=
          if !(find_dead_code wf).1.isEmpty then (find_dead_code wf).1 else [] } := by
  unfold validate_workflow
  rw [if_neg (by simp [h])]

/-- C3: whenever the dead set is non-empty, the aggregated errors contain
exactly one synthetic dead-code diagnostic, carrying the sorted list of all
dead node names; on the `Order_Flow` scenario the dead set is exactly `{B}`,
the status is FAIL, and the single error message names `B`. -/
theorem dead_code_single_diagnostic :
    (∀ (names : List String) (wf : Workflow), wf.isArchived = false →
      (find_dead_code wf).1 ≠ [] →
      (validate_workflow names wf).errors.filter Diag.isDeadCode
          = [Diag.deadCode (sortNames (find_dead_code wf).1)] ∧
        ∀ n ∈ (find_dead_code wf).1, n ∈ sortNames (find_dead_code wf).1) ∧
    ((find_dead_code orderFlow).1 = ["B"] ∧
      (validate_workflow [] orderFlow).errors = [Diag.deadCode ["B"]] ∧
      statusOf (validate_workflow [] orderFlow) = "FAIL" ∧
      strContains (Diag.render (Diag.deadCode ["B"])) "B" = true) := by
  constructor
  · intro names wf harch hdead
    constructor
    · rw [validate_workflow_eq names wf harch]
      simp only [List.filter_append]
      have h1 : (if !(find_dead_code wf).1.isEmpty then
            [Diag.deadCode (sortNames (find_dead_code wf).1)]
          else []).filter Diag.isDeadCode
          = [Diag.deadCode (sortNames (find_dead_code wf).1)] := by
        rw [if_pos (by simpa using hdead)]
        rfl
      have h2 : ((wf.nodes.map (nodeErrors names)).flatten).filter Diag.isDeadCode = [] := by
        rw [List.filter_eq_nil_iff]
        intro d hd
        rw [List.mem_flatten] at hd
        obtain ⟨l, hl, hdl⟩ := hd
        rw [List.mem_map] at hl
        obtain ⟨n, _, hn⟩ := hl
        subst hn
        simp [nodeErrors_no_deadCode names n d hdl]
      have h3 : (connErrors wf).filter Diag.isDeadCode = [] := by
        rw [List.filter_eq_nil_iff]
        intro d hd
        simp [connErrors_no_deadCode wf d hd]
      rw [h1, h2, h3]
      rfl
    · intro n hn
      exact (mem_sortNames n _).mpr hn
  · refine ⟨by decide, by decide, by decide, by decide⟩

/-- Witness for C3's general part at the scenario document. -/
theorem dead_code_single_diagnostic_witness :
    (validate_workflow [] orderFlow).errors.filter Diag.isDeadCode
        = [Diag.deadCode ["B"]] ∧
      "B" ∈ sortNames (find_dead_code orderFlow).1 := by
  have h := dead_code_single_diagnostic.1 [] orderFlow rfl (by decide)
  constructor
  · have hs : sortNames (find_dead_code orderFlow).1 = ["B"] := by decide
    rw [← hs]
    exact h.1
  · exact h.2 "B" (by decide)

/-! ### Claim C2: supporting lemmas -/

theorem contains_false_iff (l : List String) (x : String) :
    l.contains x = false ↔ x ∉ l := by
  constructor
  · intro h hx
    have := List.elem_iff.mpr hx
    rw [show l.contains x = l.elem x from rfl] at h
    rw [this] at h
    cases h
  · intro h
    by_cases hc : l.contains x = true
    · exact absurd (List.elem_iff.mp hc) h
    · simpa using hc

theorem any_congr' {α : Type _} (p q : α → Bool) :
    ∀ l : List α, (∀ x ∈ l, p x = q x) → l.any p = l.any q := by
  intro l
  induction l with
  | nil => intro _; rfl
  | cons a l ih =>
    intro h
    simp only [List.any_cons]
    rw [h a (by simp), ih (fun x hx => h x (List.mem_cons_of_mem a hx))]

theorem filter_any_key (p : String → Bool) (k : String) (hp : p k = true) :
    ∀ acc : List (String × Node),
      (acc.filter (fun e => p e.1)).any (fun e => e.1 == k)
        = acc.any (fun e => e.1 == k) := by
  intro acc
  induction acc with
  | nil => rfl
  | cons e acc ih =>
    rw [List.filter_cons]
    by_cases he : e.1 = k
    · rw [if_pos (by rw [he]; exact hp)]
      simp [List.any_cons, ih]
    · by_cases hpe : p e.1 = true
      · rw [if_pos hpe]
        simp [List.any_cons, ih]
      · rw [if_neg hpe, ih]
        simp only [List.any_cons]
        have hek : (e.1 == k) = false := by simpa using he
        rw [hek]
        simp

theorem map_replace_filter_pos (p : String → Bool) (k : String) (v : Node)
    (hp : p k = true) :
    ∀ acc : List (String × Node),
      ((acc.filter (fun e => p e.1)).map (fun e => if e.1 == k then (k, v) else e))
        = ((acc.map (fun e => if e.1 == k then (k, v) else e)).filter (fun e => p e.1)) := by
  intro acc
  induction acc with
  | nil => rfl
  | cons e acc ih =>
    rw [List.filter_cons]
    by_cases hpe : p e.1 = true
    · rw [if_pos hpe, List.map_cons, List.map_cons, List.filter_cons]
      have hup : p (if e.1 == k then ((k, v) : String × Node) else e).1 = true := by
        by_cases he : (e.1 == k) = true
        · rw [if_pos he]
          exact hp
        · rw [if_neg he]
          exact hpe
      rw [if_pos hup, ih]
    · rw [if_neg hpe, List.map_cons, List.filter_cons]
      have he : ¬ (e.1 == k) = true := by
        intro hek
        have hke : e.1 = k := by simpa using hek
        rw [hke, hp] at hpe
        exact hpe rfl
      have hupd : (if e.1 == k then ((k, v) : String × Node) else e) = e := if_neg he
      rw [hupd, if_neg hpe, ih]

theorem dictInsert_filter_pos (p : String → Bool) (acc : List (String × Node))
    (k : String) (v : Node) (hp : p k = true) :
    dictInsert (acc.filter (fun e => p e.1)) k v
      = (dictInsert acc k v).filter (fun e => p e.1) := by
  unfold dictInsert
  rw [filter_any_key p k hp acc]
  by_cases h : acc.any (fun e => e.1 == k) = true
  · rw [if_pos h, if_pos h]
    exact map_replace_filter_pos p k v hp acc
  · rw [if_neg h, if_neg h, List.filter_append, List.filter_cons]
    rw [if_pos hp]
    rfl

theorem map_replace_filter (p : String → Bool) (k : String) (v : Node)
    (hp : p k = false) :
    ∀ acc : List (String × Node),
      ((acc.map (fun e => if e.1 == k then (k, v) else e)).filter (fun e => p e.1))
        = acc.filter (fun e => p e.1) := by
  intro acc
  induction acc with
  | nil => rfl
  | cons e acc ih =>
    rw [List.map_cons, List.filter_cons, List.filter_cons]
    by_cases he : (e.1 == k) = true
    · have hupd : (if e.1 == k then ((k, v) : String × Node) else e) = (k, v) :=
        if_pos he
      rw [hupd]
      have h1 : p ((k, v) : String × Node).1 = false := hp
      have hpe : p e.1 = false := by
        have hke : e.1 = k := by simpa using he
        rw [hke]
        exact hp
      rw [if_neg (by simp [h1]), if_neg (by simp [hpe]), ih]
    · have hupd : (if e.1 == k then ((k, v) : String × Node) else e) = e := if_neg he
      rw [hupd]
      by_cases hpe : p e.1 = true
      · rw [if_pos hpe, if_pos hpe, ih]
      · rw [if_neg hpe, if_neg hpe, ih]

theorem dictInsert_filter_neg (p : String → Bool) (acc : List (String × Node))
    (k : String) (v : Node) (hp : p k = false) :
    (dictInsert acc k v).filter (fun e => p e.1) = acc.filter (fun e => p e.1) := by
  unfold dictInsert
  by_cases h : acc.any (fun e => e.1 == k) = true
  · rw [if_pos h]
    exact map_replace_filter p k v hp acc
  · rw [if_neg h, List.filter_append, List.filter_cons]
    rw [if_neg (by simp [hp])]
    simp

theorem foldl_dictInsert_filter (p : String → Bool) :
    ∀ (ns : List Node) (acc : List (String × Node)),
      (ns.filter (fun n => p n.name)).foldl (fun m n => dictInsert m n.name n)
          (acc.filter (fun e => p e.1))
        = ((ns.foldl (fun m n => dictInsert m n.name n) acc).filter (fun e => p e.1)) := by
  intro ns
  induction ns with
  | nil => intro acc; rfl
  | cons n ns ih =>
    intro acc
    rw [List.filter_cons]
    by_cases hp : p n.name = true
    · rw [if_pos hp, List.foldl_cons, List.foldl_cons,
        dictInsert_filter_pos p acc n.name n hp]
      exact ih (dictInsert acc n.name n)
    · rw [if_neg hp, List.foldl_cons,
        ← dictInsert_filter_neg p acc n.name n (by simpa using hp)]
      exact ih (dictInsert acc n.name n)

theorem nodesDict_filter (p : String → Bool) (ns : List Node) :
    nodesDict (ns.filter (fun n => p n.name)) = (nodesDict ns).filter (fun e => p e.1) := by
  unfold nodesDict
  exact foldl_dictInsert_filter p ns []

theorem map_fst_filter (p : String → Bool) :
    ∀ l : List (String × Node),
      (l.filter (fun e => p e.1)).map Prod.fst = (l.map Prod.fst).filter p := by
  intro l
  induction l with
  | nil => rfl
  | cons e l ih =>
    rw [List.filter_cons, List.map_cons, List.filter_cons]
    by_cases hp : p e.1 = true
    · rw [if_pos hp, if_pos hp, List.map_cons, ih]
    · rw [if_neg hp, if_neg hp, ih]

theorem nodeKeys_applyFix (wf : Workflow) (dead : List String) :
    nodeKeys (applyFix wf dead) = (nodeKeys wf).filter (fun k => !dead.contains k) := by
  show ((nodesDict (wf.nodes.filter (fun n => !dead.contains n.name))).map Prod.fst) = _
  rw [nodesDict_filter (fun s => !dead.contains s) wf.nodes,
    map_fst_filter (fun s => !dead.contains s)]
  rfl

theorem lookupNode_filter (p : String → Bool) (k : String) (hp : p k = true) :
    ∀ m : List (String × Node),
      lookupNode (m.filter (fun e => p e.1)) k = lookupNode m k := by
  intro m
  unfold lookupNode
  have hfind : (m.filter (fun e => p e.1)).find? (fun e => e.1 == k)
      = m.find? (fun e => e.1 == k) := by
    induction m with
    | nil => rfl
    | cons e m ih =>
      rw [List.filter_cons]
      by_cases hpe : p e.1 = true
      · rw [if_pos hpe]
        simp only [List.find?_cons]
        by_cases he : (e.1 == k) = true
        · rw [he]
        · rw [show (e.1 == k) = false from by simpa using he]
          exact ih
      · rw [if_neg hpe]
        have he : (e.1 == k) = false := by
          by_cases hek : (e.1 == k) = true
          · have hke : e.1 = k := by simpa using hek
            rw [hke, hp] at hpe
            exact absurd rfl hpe
          · simpa using hek
        simp only [List.find?_cons]
        rw [he]
        exact ih
  rw [hfind]

/-- The keep-predicate of the auto-fixer's connection pruning. -/
def keepConn (dead : List String) (c : Conn) : Bool :=
  match c.node with
  | some t => !dead.contains t
  | none => true

theorem filterMap_connTgt_filter (dead : List String) :
    ∀ out : List Conn,
      ((out.filter (fun c => keepConn dead c)).filterMap connTgt)
        = (out.filterMap connTgt).filter (fun t => !dead.contains t) := by
  intro out
  induction out with
  | nil => rfl
  | cons c out ih =>
    rw [List.filter_cons, List.filterMap_cons]
    match hn : c.node with
    | none =>
      have hk : keepConn dead c = true := by unfold keepConn; rw [hn]
      have hct : connTgt c = none := by unfold connTgt; rw [hn]
      rw [hct, if_pos hk, List.filterMap_cons, hct, ih]
    | some t =>
      by_cases ht : t = ""
      · subst ht
        have hct : connTgt c = none := by unfold connTgt; rw [hn]; rfl
        rw [hct]
        by_cases hk : keepConn dead c = true
        · rw [if_pos hk, List.filterMap_cons, hct, ih]
        · rw [if_neg hk, ih]
      · have hct : connTgt c = some t := by
          unfold connTgt
          rw [hn]
          show (if (t == "") = true then none else some t) = some t
          rw [if_neg (by simpa using ht)]
        have hkeq : keepConn dead c = !dead.contains t := by unfold keepConn; rw [hn]
        rw [hct, List.filter_cons]
        by_cases hd : (!dead.contains t) = true
        · rw [if_pos (by rw [hkeq]; exact hd), if_pos hd, List.filterMap_cons, hct, ih]
        · rw [if_neg (by rw [hkeq]; exact hd), if_neg hd, ih]

theorem flatConns_prune (dead : List String) (outs : Outputs) :
    flatConns (pruneOutputs dead outs)
      = (flatConns outs).filter (fun c => keepConn dead c) := by
  unfold flatConns pruneOutputs
  rw [List.map_map, List.filter_flatten, List.map_map]
  congr 1
  apply List.map_congr_left
  intro o _
  show ((o.2.map (List.filter (fun c =>
      match c.node with
      | some t => !dead.contains t
      | none => true))).flatten)
    = (o.2.flatten).filter (fun c => keepConn dead c)
  rw [List.filter_flatten]
  congr 1

theorem entryTargets_prune (dead : List String) (outs : Outputs) :
    entryTargets (pruneOutputs dead outs)
      = (entryTargets outs).filter (fun t => !dead.contains t) := by
  unfold entryTargets
  rw [flatConns_prune, filterMap_connTgt_filter]

theorem filter_key_map_prune (dead : List String) (n : String) :
    ∀ l : Connections,
      ((l.map (fun e => (e.1, pruneOutputs dead e.2))).filter (fun e => e.1 == n))
        = ((l.filter (fun e => e.1 == n)).map (fun e => (e.1, pruneOutputs dead e.2))) := by
  intro l
  induction l with
  | nil => rfl
  | cons e l ih =>
    rw [List.map_cons, List.filter_cons, List.filter_cons]
    by_cases he : (e.1 == n) = true
    · rw [if_pos he, if_pos he, List.map_cons, ih]
    · rw [if_neg he, if_neg he, ih]

theorem srcTargets_prune (dead : List String) (conns : Connections) (n : String)
    (hn : dead.contains n = false) :
    srcTargets
        ((conns.filter (fun e => !dead.contains e.1)).map
          (fun e => (e.1, pruneOutputs dead e.2))) n
      = (srcTargets conns n).filter (fun t => !dead.contains t) := by
  unfold srcTargets
  rw [filter_key_map_prune, List.filter_filter]
  have hff : conns.filter (fun e => (e.1 == n) && !dead.contains e.1)
      = conns.filter (fun e => e.1 == n) := by
    apply List.filter_congr
    intro e _
    by_cases he : (e.1 == n) = true
    · have hen : e.1 = n := by simpa using he
      rw [he, hen, hn]
      rfl
    · rw [show (e.1 == n) = false from by simpa using he]
      rfl
  rw [hff, List.map_map, List.filter_flatten, List.map_map]
  congr 1
  apply List.map_congr_left
  intro e _
  exact entryTargets_prune dead e.2

theorem dead_contains_false_of_reachable (wf : Workflow) (t : String)
    (ht : t ∈ reachableOf wf) : (find_dead_code wf).1.contains t = false := by
  rw [contains_false_iff]
  intro hmem
  exact (dead_sub wf t hmem).2 ht

theorem applyFix_nodes (wf : Workflow) (dead : List String) :
    (applyFix wf dead).nodes = wf.nodes.filter (fun n => !dead.contains n.name) := rfl

theorem applyFix_connections (wf : Workflow) (dead : List String) :
    (applyFix wf dead).connections =
      (wf.connections.filter (fun e => !dead.contains e.1)).map
        (fun e => (e.1, pruneOutputs dead e.2)) := rfl

theorem nodesDict_applyFix (wf : Workflow) (dead : List String) :
    nodesDict (applyFix wf dead).nodes
      = (nodesDict wf.nodes).filter (fun e => !dead.contains e.1) := by
  rw [applyFix_nodes]
  exact nodesDict_filter (fun s => !dead.contains s) wf.nodes

theorem lookupNode_none_of_not_mem (m : List (String × Node)) (k : String)
    (hk : k ∉ m.map Prod.fst) : lookupNode m k = none := by
  unfold lookupNode
  rw [List.find?_eq_none.mpr, Option.map]
  intro e he hbeq
  exact hk ((eq_of_beq hbeq) ▸ List.mem_map_of_mem Prod.fst he)

theorem adjOf_applyFix_eq (wf : Workflow) :
    ∀ n ∈ reachableOf wf,
      adjOf (applyFix wf (find_dead_code wf).1) n = adjOf wf n := by
  intro n hn
  have hnd : (find_dead_code wf).1.contains n = false :=
    dead_contains_false_of_reachable wf n hn
  by_cases hk : n ∈ nodeKeys wf
  · have hk' : n ∈ nodeKeys (applyFix wf (find_dead_code wf).1) := by
      rw [nodeKeys_applyFix]
      exact List.mem_filter.mpr ⟨hk, by rw [hnd]; rfl⟩
    rw [adjOf_eq, if_pos hk', adjOf_eq, if_pos hk]
    rw [applyFix_connections]
    rw [srcTargets_prune (find_dead_code wf).1 wf.connections n hnd]
    rw [List.filter_eq_self]
    intro t ht
    have ht' : t ∈ adjOf wf n := by
      rw [adjOf_eq, if_pos hk]
      exact ht
    have htr : t ∈ reachableOf wf := reachable_closed wf n hn t ht'
    rw [dead_contains_false_of_reachable wf t htr]
    rfl
  · have hk' : n ∉ nodeKeys (applyFix wf (find_dead_code wf).1) := by
      rw [nodeKeys_applyFix]
      intro hmem
      exact hk (List.mem_filter.mp hmem).1
    rw [adjOf_supp _ n hk', adjOf_supp wf n hk]

theorem triggersOf_applyFix (wf : Workflow) :
    triggersOf (applyFix wf (find_dead_code wf).1) = triggersOf wf := by
  unfold triggersOf
  rw [nodesDict_applyFix, List.filter_comm]
  have hself : ((nodesDict wf.nodes).filter
        (fun p => isTriggerType p.2.«type»)).filter
          (fun e => !(find_dead_code wf).1.contains e.1)
      = (nodesDict wf.nodes).filter (fun p => isTriggerType p.2.«type») := by
    rw [List.filter_eq_self]
    intro e he
    have htrig : e.1 ∈ triggersOf wf := by
      unfold triggersOf
      exact List.mem_map_of_mem Prod.fst he
    have hreach := triggers_subset_reachable wf e.1 htrig
    rw [dead_contains_false_of_reachable wf e.1 hreach]
    rfl
  rw [hself]

theorem sum_filter_le (p : String → Bool) (f g : String → Nat)
    (K : List String) (h : ∀ k ∈ K, p k = true → f k ≤ g k) :
    ((K.filter p).map f).sum ≤ (K.map g).sum := by
  induction K with
  | nil => simp
  | cons k K ih =>
    rw [List.filter_cons, List.map_cons, List.sum_cons]
    have ih' := ih (fun x hx hp => h x (List.mem_cons_of_mem k hx) hp)
    by_cases hp : p k = true
    · rw [if_pos hp, List.map_cons, List.sum_cons]
      have := h k (List.mem_cons_self k K) hp
      omega
    · rw [if_neg hp]
      omega

theorem adjWeight_nil_eq (adj : String → List String) (K : List String) :
    adjWeight adj K [] = (K.map (fun k => (adj k).length)).sum := by
  unfold adjWeight
  rw [List.filter_eq_self.mpr]
  intro k _
  simp

theorem reachableOf_applyFix (wf : Workflow) :
    reachableOf (applyFix wf (find_dead_code wf).1) = reachableOf wf := by
  have htrig := triggersOf_applyFix wf
  rw [reachableOf_def (applyFix wf (find_dead_code wf).1), htrig]
  have hpot1 : bfsPot (adjOf (applyFix wf (find_dead_code wf).1))
      (nodeKeys (applyFix wf (find_dead_code wf).1)) (triggersOf wf) []
      < bfsFuel (buildGraph (nodeKeys (applyFix wf (find_dead_code wf).1))
          (applyFix wf (find_dead_code wf).1).connections)
        (triggersOf wf) := by
    have h0 := bfsPot_lt_bfsFuel (applyFix wf (find_dead_code wf).1)
    rwa [htrig] at h0
  have hwle : adjWeight (adjOf (applyFix wf (find_dead_code wf).1))
      (nodeKeys (applyFix wf (find_dead_code wf).1)) []
      ≤ adjWeight (adjOf wf) (nodeKeys wf) [] := by
    rw [adjWeight_nil_eq, adjWeight_nil_eq, nodeKeys_applyFix]
    apply sum_filter_le
    intro k hk hp
    have hk' : k ∈ nodeKeys (applyFix wf (find_dead_code wf).1) := by
      rw [nodeKeys_applyFix]
      exact List.mem_filter.mpr ⟨hk, hp⟩
    rw [adjOf_eq, if_pos hk', adjOf_eq, if_pos hk]
    rw [applyFix_connections, srcTargets_prune _ _ k (by simpa using hp)]
    exact List.length_filter_le _ _
  have hpot2 : bfsPot (adjOf (applyFix wf (find_dead_code wf).1))
      (nodeKeys (applyFix wf (find_dead_code wf).1)) (triggersOf wf) []
      < bfsFuel (buildGraph (nodeKeys wf) wf.connections) (triggersOf wf) := by
    have h0 := bfsPot_lt_bfsFuel wf
    unfold bfsPot at h0 ⊢
    omega
  rw [bfsAux_fuel_eq (adjOf (applyFix wf (find_dead_code wf).1))
    (nodeKeys (applyFix wf (find_dead_code wf).1))
    (nodeKeys_nodup (applyFix wf (find_dead_code wf).1))
    (adjOf_supp (applyFix wf (find_dead_code wf).1))
    _ (bfsFuel (buildGraph (nodeKeys wf) wf.connections) (triggersOf wf))
    (triggersOf wf) [] hpot1 hpot2]
  rw [bfsAux_congr (adjOf wf) (adjOf (applyFix wf (find_dead_code wf).1))
    (bfsFuel (buildGraph (nodeKeys wf) wf.connections) (triggersOf wf))
    (triggersOf wf) []
    (fun n hn => adjOf_applyFix_eq wf n (by rw [reachableOf_def wf]; exact hn))]
  exact (reachableOf_def wf).symm

theorem hasChain_applyFix (wf : Workflow) :
    hasReachableAiChain (applyFix wf (find_dead_code wf).1)
      = hasReachableAiChain wf := by
  unfold hasReachableAiChain
  rw [reachableOf_applyFix]
  apply any_congr'
  intro name hname
  have hnd : (find_dead_code wf).1.contains name = false :=
    dead_contains_false_of_reachable wf name hname
  unfold typeOfName
  rw [nodesDict_applyFix,
    lookupNode_filter (fun s => !(find_dead_code wf).1.contains s) name
      (by show (!(find_dead_code wf).1.contains name) = true; rw [hnd]; rfl)]

theorem nodeIsAiModel_applyFix (wf : Workflow) (k : String)
    (hk : (find_dead_code wf).1.contains k = false) :
    nodeIsAiModel (applyFix wf (find_dead_code wf).1) k = nodeIsAiModel wf k := by
  unfold nodeIsAiModel
  rw [nodesDict_applyFix,
    lookupNode_filter (fun s => !(find_dead_code wf).1.contains s) k
      (by show (!(find_dead_code wf).1.contains k) = true; rw [hk]; rfl)]

theorem find_dead_code_applyFix (wf : Workflow) :
    (find_dead_code (applyFix wf (find_dead_code wf).1)).1 = [] := by
  rw [find_dead_code_eq]
  simp only
  by_cases hchain : hasReachableAiChain wf = true
  · rw [if_pos (by rw [hasChain_applyFix]; exact hchain)]
    rw [List.filter_eq_nil_iff]
    intro k hk
    obtain ⟨hk1, hk2⟩ := (mem_deadPre _ k).mp hk
    rw [nodeKeys_applyFix] at hk1
    obtain ⟨hkK, hkd⟩ := List.mem_filter.mp hk1
    rw [reachableOf_applyFix] at hk2
    have hcont : (find_dead_code wf).1.contains k = false := by simpa using hkd
    have hknotdead : k ∉ (find_dead_code wf).1 := (contains_false_iff _ k).mp hcont
    have hdpre : k ∈ deadPre wf := (mem_deadPre wf k).mpr ⟨hkK, hk2⟩
    have hmodel : nodeIsAiModel wf k = true := by
      by_contra hm
      apply hknotdead
      rw [find_dead_code_eq]
      simp only [if_pos hchain]
      exact List.mem_filter.mpr ⟨hdpre, by simpa using hm⟩
    simp [nodeIsAiModel_applyFix wf k hcont, hmodel]
  · rw [if_neg (by rw [hasChain_applyFix]; exact hchain)]
    rw [List.eq_nil_iff_forall_not_mem]
    intro k hk
    obtain ⟨hk1, hk2⟩ := (mem_deadPre _ k).mp hk
    rw [nodeKeys_applyFix] at hk1
    obtain ⟨hkK, hkd⟩ := List.mem_filter.mp hk1
    rw [reachableOf_applyFix] at hk2
    have hmem : k ∈ (find_dead_code wf).1 := by
      rw [find_dead_code_eq]
      simp only [if_neg hchain]
      exact (mem_deadPre wf k).mpr ⟨hkK, hk2⟩
    have : (find_dead_code wf).1.contains k = true := List.elem_iff.mpr hmem
    rw [this] at hkd
    exact absurd hkd (by simp)

theorem pruneOutputs_nil (outs : Outputs) : pruneOutputs [] outs = outs := by
  unfold pruneOutputs
  have hfil : ∀ out : List Conn,
      out.filter (fun c =>
        match c.node with
        | some t => !([] : List String).contains t
        | none => true) = out := by
    intro out
    rw [List.filter_eq_self]
    intro c _
    obtain ⟨cn⟩ := c
    cases cn <;> rfl
  conv_rhs => rw [← List.map_id outs]
  apply List.map_congr_left
  intro o _
  have hmap : o.2.map (List.filter (fun c =>
      match c.node with
      | some t => !([] : List String).contains t
      | none => true)) = o.2 := by
    conv_rhs => rw [← List.map_id o.2]
    apply List.map_congr_left
    intro out _
    exact hfil out
  rw [hmap]
  rfl

theorem applyFix_nil (wf : Workflow) : applyFix wf [] = wf := by
  unfold applyFix
  have hnodes : wf.nodes.filter (fun n => !([] : List String).contains n.name)
      = wf.nodes := List.filter_eq_self.mpr (fun n _ => rfl)
  have hconns : (wf.connections.filter (fun e => !([] : List String).contains e.1)).map
        (fun e => (e.1, pruneOutputs [] e.2))
      = wf.connections := by
    have hf : wf.connections.filter (fun e => !([] : List String).contains e.1)
        = wf.connections := List.filter_eq_self.mpr (fun e _ => rfl)
    rw [hf]
    conv_rhs => rw [← List.map_id wf.connections]
    apply List.map_congr_left
    intro e _
    rw [pruneOutputs_nil]
    rfl
  rw [hnodes, hconns]

/-! ### Claim C2 -/

/-- C2: fixing a document against its computed dead set produces a document
whose re-analysis yields an empty dead set, so a second `fix` (with the dead
set recomputed on the output) is the identity; the fix removes exactly the
dead nodes, drops every connection entry whose source is dead, prunes every
connection target that is dead (also under surviving sources), and changes
nothing else (name, archived flag, surviving nodes, surviving entries). -/
theorem fix_idempotent (wf : Workflow) :
    (find_dead_code (applyFix wf (find_dead_code wf).1)).1 = [] ∧
    applyFix (applyFix wf (find_dead_code wf).1)
        (find_dead_code (applyFix wf (find_dead_code wf).1)).1
      = applyFix wf (find_dead_code wf).1 ∧
    (applyFix wf (find_dead_code wf).1).name = wf.name ∧
    (applyFix wf (find_dead_code wf).1).isArchived = wf.isArchived ∧
    (∀ n ∈ (applyFix wf (find_dead_code wf).1).nodes,
      n.name ∉ (find_dead_code wf).1 ∧ n ∈ wf.nodes) ∧
    (∀ n ∈ wf.nodes, n.name ∉ (find_dead_code wf).1 →
      n ∈ (applyFix wf (find_dead_code wf).1).nodes) ∧
    (∀ src ∈ (find_dead_code wf).1,
      ∀ e ∈ (applyFix wf (find_dead_code wf).1).connections, e.1 ≠ src) ∧
    (∀ e ∈ (applyFix wf (find_dead_code wf).1).connections,
      ∀ o ∈ e.2, ∀ out ∈ o.2, ∀ c ∈ out, ∀ t, c.node = some t →
        t ∉ (find_dead_code wf).1) ∧
    (∀ e ∈ wf.connections, e.1 ∉ (find_dead_code wf).1 →
      (e.1, pruneOutputs (find_dead_code wf).1 e.2)
        ∈ (applyFix wf (find_dead_code wf).1).connections) := by
  refine ⟨find_dead_code_applyFix wf, ?_, rfl, rfl, ?_, ?_, ?_, ?_, ?_⟩
  · rw [find_dead_code_applyFix wf, applyFix_nil]
  · intro n hn
    rw [applyFix_nodes] at hn
    obtain ⟨hmem, hpred⟩ := List.mem_filter.mp hn
    exact ⟨(contains_false_iff _ _).mp (by simpa using hpred), hmem⟩
  · intro n hn hnd
    rw [applyFix_nodes]
    refine List.mem_filter.mpr ⟨hn, ?_⟩
    rw [(contains_false_iff _ _).mpr hnd]
    rfl
  · intro src hsrc e he hes
    rw [applyFix_connections] at he
    obtain ⟨e0, he0, heq⟩ := List.mem_map.mp he
    obtain ⟨_, hpred⟩ := List.mem_filter.mp he0
    have hsrc0 : e0.1 = src := by rw [← heq] at hes; exact hes
    rw [hsrc0] at hpred
    have hcf : (find_dead_code wf).1.contains src = false := by simpa using hpred
    exact absurd hsrc ((contains_false_iff _ src).mp hcf)
  · intro e he o ho out hout c hc t hct
    rw [applyFix_connections] at he
    obtain ⟨e0, _, heq⟩ := List.mem_map.mp he
    have ho2 : e.2 = pruneOutputs (find_dead_code wf).1 e0.2 := by rw [← heq]
    rw [ho2] at ho
    unfold pruneOutputs at ho
    obtain ⟨o0, _, hoq⟩ := List.mem_map.mp ho
    have ho2' : o.2 = o0.2.map (List.filter (fun c =>
        match c.node with
        | some t => !(find_dead_code wf).1.contains t
        | none => true)) := by rw [← hoq]
    rw [ho2'] at hout
    obtain ⟨out0, _, houtq⟩ := List.mem_map.mp hout
    rw [← houtq] at hc
    have hkeep := (List.mem_filter.mp hc).2
    rw [hct] at hkeep
    exact (contains_false_iff _ _).mp (by simpa using hkeep)
  · intro e he hnd
    rw [applyFix_connections]
    refine List.mem_map.mpr ⟨e, ?_, rfl⟩
    refine List.mem_filter.mpr ⟨he, ?_⟩
    rw [(contains_false_iff _ _).mpr hnd]
    rfl

/-- Witness for C2 at the scenario document: fixing `Order_Flow` removes the
dead node `B`, its re-analysis is clean, and the second fix is the identity. -/
theorem fix_idempotent_witness :
    (find_dead_code (applyFix orderFlow (find_dead_code orderFlow).1)).1 = [] ∧
      applyFix (applyFix orderFlow (find_dead_code orderFlow).1)
          (find_dead_code (applyFix orderFlow (find_dead_code orderFlow).1)).1
        = applyFix orderFlow (find_dead_code orderFlow).1 ∧
      codeA ∈ (applyFix orderFlow (find_dead_code orderFlow).1).nodes := by
  refine ⟨(fix_idempotent orderFlow).1, (fix_idempotent orderFlow).2.1, ?_⟩
  exact (fix_idempotent orderFlow).2.2.2.2.2.1 codeA (by decide) (by decide)

end Kairon
